import Mathlib

/-!
# ArangoDB scheduler and transaction proxy: embedding and properties

Shallow embedding of `arangod/Scheduler/Scheduler.h` (delayed work, work
handles, the delayed-work queue, the three request lanes, the lifecycle) and of
`arangod/Transaction/TransactionProxy.h` (the borrowing or creating proxy
around a single-collection transaction).

Conventions of the embedding:

* a `std::function<void()>` is identified by a natural number;
* `clock::time_point` and `clock::duration` are counts of ticks of the steady
  clock held in a signed 64-bit integer; they are integers here, and the sum
  `clock::now() + delay` is taken modulo `2^64` into the signed range
  (`wrapInt64`), the clock reading being an explicit argument;
* a `std::shared_ptr<DelayedWork>` is an optional address into a store of
  `DelayedWork` objects; the store keeps every object, reference counting (which
  only decides when storage is released) is not part of the model;
* dereferencing an empty pointer is the error branch `Fault.nullDeref`.
-/

set_option autoImplicit false

namespace Scheduler

/-! ## DelayedWork -/

/-- A callable `std::function<void()>`, identified by a number. -/
abbrev Handler := Nat

/-- A reading of `clock::time_point`, in ticks. -/
abbrev TimePoint := Int

/-- A `clock::duration`, in ticks. -/
abbrev Duration := Int

/-- The value that a signed 64-bit integer holds for the integer `x`: the
representative of `x` modulo `2^64` in `[-2^63, 2^63)`. -/
def wrapInt64 (x : Int) : Int := (x + 2 ^ 63) % 2 ^ 64 - 2 ^ 63

/-- The struct `Scheduler::DelayedWork`. -/
structure DelayedWork where
  _handler : Handler
  _due : TimePoint
  _cancelled : Bool
deriving DecidableEq, Repr

namespace DelayedWork

/-- Constructor `DelayedWork(std::function<void()> const& handler, clock::duration delay)`;
`now` is the value returned by `clock::now()`, and `clock::now() + delay` is
an addition of signed 64-bit tick counts. -/
def mkCopy (now : TimePoint) (handler : Handler) (delay : Duration) : DelayedWork :=
  ⟨handler, wrapInt64 (now + delay), false⟩

/-- Method `void cancel() { _cancelled = true; }`. -/
def cancel (w : DelayedWork) : DelayedWork :=
  { w with _cancelled := true }

/-- Method `bool operator <(const DelayedWork & rhs) const { return _due < rhs._due; }`. -/
def lt (w rhs : DelayedWork) : Bool :=
  decide (w._due < rhs._due)

end DelayedWork

/-! ## Shared pointers and WorkHandle -/

/-- The address held by a non-empty `std::shared_ptr<DelayedWork>`. -/
abbrev Ptr := Nat

/-- The `DelayedWork` objects, by address. -/
abbrev Store := Ptr → DelayedWork

/-- Failure of the embedding: an empty pointer was dereferenced. -/
inductive Fault where
  | nullDeref
deriving DecidableEq, Repr

/-- The class `Scheduler::WorkHandle`; `_handle` is `none` for an empty
shared pointer. -/
structure WorkHandle where
  _handle : Option Ptr
deriving DecidableEq, Repr

namespace WorkHandle

/-- Constructor `WorkHandle() {}`. -/
def default : WorkHandle := ⟨none⟩

/-- Constructor `WorkHandle(std::shared_ptr<DelayedWork> &handle) : _handle(handle) {}`. -/
def ofShared (handle : Option Ptr) : WorkHandle := ⟨handle⟩

/-- Method `void cancel() { _handle->cancel(); }`. -/
def cancel (h : WorkHandle) (σ : Store) : Except Fault Store :=
  match h._handle with
  | none => .error .nullDeref
  | some p => .ok (Function.update σ p (σ p).cancel)

/-- Method `void detach() { _handle.reset(); }`: the handle becomes empty, no
`DelayedWork` is written. -/
def detach (_h : WorkHandle) (σ : Store) : WorkHandle × Store :=
  (⟨none⟩, σ)

/-- Destructor `~WorkHandle() { if(_handle) { cancel(); } }`. -/
def destroy (h : WorkHandle) (σ : Store) : Except Fault Store :=
  if h._handle.isSome then h.cancel σ else .ok σ

/-- The implicitly declared copy constructor `WorkHandle(WorkHandle const&)`:
the new handle gets a copy of `_handle`; the source handle and every
`DelayedWork` are as before. The class declares a destructor and no move
operations, so constructing from an rvalue selects this constructor too. -/
def copy (h : WorkHandle) : WorkHandle := ⟨h._handle⟩

/-- The implicitly declared copy assignment `operator=(WorkHandle const&)`:
the target's `_handle` is replaced by a copy of the source's; the shared
pointer that the target held is released without a call of `cancel()`. -/
def assign (_target source : WorkHandle) : WorkHandle := ⟨source._handle⟩

end WorkHandle

/-! ## The delayed-work queue `_priorityQueue` -/

/-- The member `top()` of `std::priority_queue<T, std::vector<T>, Compare>`:
a greatest element of the container under the strict order `less`
(`none` on an empty container). -/
def pqTop {α : Type} (less : α → α → Bool) : List α → Option α
  | [] => none
  | x :: xs =>
    match pqTop less xs with
    | none => some x
    | some y => if less x y then some y else some x

/-- The member `pop()` of `std::priority_queue`: removes the element that
`top()` returns. -/
def pqPop {α : Type} [DecidableEq α] (less : α → α → Bool) (c : List α) : List α :=
  match pqTop less c with
  | none => c
  | some t => c.erase t

/-- The member `push()` of `std::priority_queue`. -/
def pqPush {α : Type} (x : α) (c : List α) : List α := x :: c

/-- The comparison `operator<` of two `std::shared_ptr<DelayedWork>`, which
`std::less<std::shared_ptr<DelayedWork>>` calls: it compares the stored
addresses, not the objects pointed to. -/
def sharedPtrLess (a b : Ptr) : Bool := decide (a < b)

/-- The member `_priorityQueue` is declared as
`std::priority_queue<std::shared_ptr<DelayedWork>>`: element type
`shared_ptr<DelayedWork>`, default comparison `std::less` of that type. -/
abbrev DelayedQueue := List Ptr

/-- The call `_priorityQueue.top()`. -/
def DelayedQueue.top (q : DelayedQueue) : Option Ptr := pqTop sharedPtrLess q

/-- The call `_priorityQueue.pop()`. -/
def DelayedQueue.pop (q : DelayedQueue) : DelayedQueue := pqPop sharedPtrLess q

/-- The call `_priorityQueue.push(p)`. -/
def DelayedQueue.push (p : Ptr) (q : DelayedQueue) : DelayedQueue := pqPush p q

/-- Two pending items: the one at address 1 is due at tick 10, the one at
address 2 at tick 20. -/
def twoPending : Store := fun p => if p = 1 then ⟨7, 10, false⟩ else ⟨8, 20, false⟩

/-! ## The scheduler state: lanes, lifecycle, worker pool

The header declares `queue`, `postDelay`, `start`, `beginShutdown`, `shutdown`,
`getWork`, `runCron`, `startOneThread` and `stopOneThread` without bodies; the
definitions below that stand for them follow the design text of the scheduler
and say so. -/

/-- Modelled from the spec: the lifecycle states of the facade,
`Created → Running → ShuttingDown → Stopped` (the header has no such
enumeration). -/
inductive Lifecycle where
  | Created
  | Running
  | ShuttingDown
  | Stopped
deriving DecidableEq, Repr

/-- Modelled from the spec: `RequestPriority` comes from
`GeneralServer/RequestLane.h`; the three external priority levels, highest
first. -/
inductive RequestPriority where
  | HIGH
  | MED
  | LOW
deriving DecidableEq, Repr

/-- An index into `_queue[3]`; lane 0 is consulted first. -/
abbrev Lane := Fin 3

/-- Modelled from the spec: each priority level is mapped to its own lane of
`_queue[3]`, in priority order. -/
def RequestPriority.lane : RequestPriority → Lane
  | .HIGH => 0
  | .MED => 1
  | .LOW => 2

/-- The struct `Scheduler::WorkItem`. The field `origin` is a ghost field: the
address of the `DelayedWork` an item was promoted from, `none` for an item
that was submitted directly. -/
structure WorkItem where
  _handler : Handler
  origin : Option Ptr
deriving DecidableEq, Repr

/-- The state of a `Scheduler`: the members `_numWorker`, `_stopping`,
`_priorityQueue`, `_queue` and `_maxNumWorker` of the header, the constructor
argument `minThreads`, the lifecycle state of the design text, the store of
`DelayedWork` objects with the next free address, and the ghost list
`executed` of the items that workers have run. -/
structure State where
  minThreads : Nat
  _maxNumWorker : Nat
  _numWorker : Nat
  _stopping : Bool
  lifecycle : Lifecycle
  store : Store
  nextPtr : Ptr
  _priorityQueue : DelayedQueue
  _queue : Lane → List WorkItem
  executed : List WorkItem

/-- Failures that the facade reports to its caller. -/
inductive SchedError where
  | RejectedSubmission
  | LifecycleMisuse
deriving DecidableEq, Repr

/-- Member `bool isRunning() const { return _numWorker > 0; }`. -/
def isRunning (s : State) : Bool := decide (s._numWorker > 0)

/-- Member `bool isStopping() const noexcept { return _stopping; }`. -/
def isStopping (s : State) : Bool := s._stopping

/-- Modelled from the spec: the constructor
`Scheduler(minThreads, maxThreads, maxQueueSize, fifo1Size, fifo2Size)`, whose
body is not in the header. The scheduler starts in `Created` with no worker,
nothing queued and nothing pending; the design text gives the three size
arguments no role. -/
def new (minThreads maxThreads _maxQueueSize _fifo1Size _fifo2Size : Nat) : State :=
  { minThreads := minThreads
    _maxNumWorker := maxThreads
    _numWorker := 0
    _stopping := false
    lifecycle := .Created
    store := fun _ => ⟨0, 0, false⟩
    nextPtr := 0
    _priorityQueue := []
    _queue := fun _ => []
    executed := [] }

/-- Modelled from the spec: whether submissions are turned away, which is the
case exactly while `ShuttingDown` or `Stopped`. -/
def rejecting (s : State) : Bool :=
  match s.lifecycle with
  | .ShuttingDown => true
  | .Stopped => true
  | _ => false

/-- Modelled from the spec: `enqueue(lane, task)` of the lane set. It appends
the item to its lane and reports `true`; while the scheduler is shutting down
the item is dropped and `false` is reported. -/
def enqueue (lane : Lane) (item : WorkItem) (s : State) : Bool × State :=
  if rejecting s then (false, s)
  else (true, { s with _queue := Function.update s._queue lane (s._queue lane ++ [item]) })

/-- Modelled from the spec: `bool queue(RequestPriority prio, std::function<void()> const&)`,
the operation `submit(priority, task)` of the design text; its body is not in
the header. -/
def queue (prio : RequestPriority) (handler : Handler) (s : State) : Bool × State :=
  enqueue prio.lane ⟨handler, none⟩ s

/-- The state after a sequence of submissions `queue(prio, task)`. -/
def submitAll (s : State) (subs : List (RequestPriority × Handler)) : State :=
  subs.foldl (fun acc x => (queue x.1 x.2 acc).2) s

/-- Modelled from the spec: `bool getWork(WorkItem *&, WorkerState &)`, the
dequeue decision `tryDequeue()` of the design text; its body is not in the
header. The lanes are scanned from lane 0 to lane 2 and the first available
item is popped; `none` when all three lanes are empty. The result carries the
item, the lane it came from, and the lanes afterwards. -/
def getWork (q : Lane → List WorkItem) : Option (WorkItem × Lane × (Lane → List WorkItem)) :=
  match q 0 with
  | w :: rest => some (w, 0, Function.update q 0 rest)
  | [] =>
    match q 1 with
    | w :: rest => some (w, 1, Function.update q 1 rest)
    | [] =>
      match q 2 with
      | w :: rest => some (w, 2, Function.update q 2 rest)
      | [] => none

/-- Modelled from the spec: one turn of the worker loop `runWorker`: a
dequeue decision and the synchronous execution of the item it returned.
Without a worker thread nothing is taken. -/
def workerStep (s : State) : State :=
  if s._numWorker = 0 then s
  else
    match getWork s._queue with
    | none => s
    | some (w, _, q) => { s with _queue := q, executed := s.executed ++ [w] }

/-- Modelled from the spec: `WorkHandle postDelay(clock::duration, std::function<void()> const&)`,
the operation `submitDelayed(delay, task)`; its body is not in the header. It
succeeds exactly while `Running`: a `DelayedWork` for the delay `delay` is
allocated, pushed on `_priorityQueue`, and a handle on it is returned. -/
def postDelay (now : TimePoint) (delay : Duration) (callback : Handler) (s : State) :
    Except SchedError (WorkHandle × State) :=
  if s.lifecycle = .Running then
    .ok (WorkHandle.ofShared (some s.nextPtr),
      { s with
        store := Function.update s.store s.nextPtr (DelayedWork.mkCopy now callback delay)
        nextPtr := s.nextPtr + 1
        _priorityQueue := s._priorityQueue.push s.nextPtr })
  else .error .RejectedSubmission

/-- The order in which due items are promoted: by `_due` ascending. -/
def dueLE (σ : Store) (p q : Ptr) : Prop := (σ p)._due ≤ (σ q)._due

instance (σ : Store) : DecidableRel (dueLE σ) := fun p q =>
  inferInstanceAs (Decidable ((σ p)._due ≤ (σ q)._due))

/-- Modelled from the spec: the pending items that one wake of the cron
thread at clock time `now` pops: all items with `due <= now`, in
non-decreasing `due` order, items of equal `due` in insertion order. -/
def cronDue (now : TimePoint) (s : State) : List Ptr :=
  ((s._priorityQueue.reverse).filter (fun p => decide ((s.store p)._due ≤ now))).insertionSort
    (dueLE s.store)

/-- Modelled from the spec: one wake of `runCron` at clock time `now`. All
items whose `due <= now` are popped; each one that is not cancelled has its
handler enqueued into the medium lane, a cancelled one is discarded. -/
def cronWake (now : TimePoint) (s : State) : State :=
  let s0 : State :=
    { s with _priorityQueue :=
        s._priorityQueue.filter (fun p => !decide ((s.store p)._due ≤ now)) }
  (cronDue now s).foldl
    (fun acc p =>
      if (s.store p)._cancelled then acc
      else (enqueue 1 ⟨(s.store p)._handler, some p⟩ acc).2)
    s0

/-- Modelled from the spec: `bool start()`, `Created → Running`, spinning up
`minThreads` workers; a misuse in any other state. -/
def start (s : State) : Except SchedError State :=
  match s.lifecycle with
  | .Created => .ok { s with lifecycle := .Running, _numWorker := s.minThreads }
  | _ => .error .LifecycleMisuse

/-- Modelled from the spec: `void beginShutdown()`, `Running → ShuttingDown`:
the scheduler stops accepting submissions and raises the stop condition;
a misuse in any other state. -/
def beginShutdown (s : State) : Except SchedError State :=
  match s.lifecycle with
  | .Running => .ok { s with lifecycle := .ShuttingDown, _stopping := true }
  | _ => .error .LifecycleMisuse

/-- Modelled from the spec: `void shutdown()`, `ShuttingDown → Stopped` once
all threads have exited: the tasks still queued have been executed by then,
the still pending delayed work is discarded without being executed; a no-op
when already `Stopped`, a misuse before. -/
def shutdown (s : State) : Except SchedError State :=
  match s.lifecycle with
  | .ShuttingDown =>
    .ok { s with
      lifecycle := .Stopped
      _numWorker := 0
      _priorityQueue := []
      _queue := fun _ => []
      executed := s.executed ++ (s._queue 0 ++ (s._queue 1 ++ s._queue 2)) }
  | .Stopped => .ok s
  | _ => .error .LifecycleMisuse

/-- Modelled from the spec: `void startOneThread()` as the supervisor uses it:
one additional worker is started when the current count is below
`maxThreads`. The other conditions of the policy (queue depth, busy workers)
only restrict when the step is taken. -/
def startOneThread (s : State) : State :=
  if s._numWorker < s._maxNumWorker then { s with _numWorker := s._numWorker + 1 } else s

/-- Modelled from the spec: `void stopOneThread()` as the supervisor uses it:
one worker is stopped when the current count is above `minThreads`. -/
def stopOneThread (s : State) : State :=
  if s.minThreads < s._numWorker then { s with _numWorker := s._numWorker - 1 } else s

/-- The operations that move a scheduler from one state to the next. -/
inductive Action where
  | queue (prio : RequestPriority) (handler : Handler)
  | postDelay (now : TimePoint) (delay : Duration) (callback : Handler)
  | cancel (h : WorkHandle)
  | destroy (h : WorkHandle)
  | cronWake (now : TimePoint)
  | work
  | start
  | beginShutdown
  | shutdown
  | startOneThread
  | stopOneThread
deriving DecidableEq, Repr

/-- The state after one operation; an operation that fails leaves the state
as it was. -/
def step (s : State) (a : Action) : State :=
  match a with
  | .queue prio handler => (queue prio handler s).2
  | .postDelay now delay callback =>
    match postDelay now delay callback s with
    | .ok (_, s1) => s1
    | .error _ => s
  | .cancel h =>
    match h.cancel s.store with
    | .ok σ => { s with store := σ }
    | .error _ => s
  | .destroy h =>
    match h.destroy s.store with
    | .ok σ => { s with store := σ }
    | .error _ => s
  | .cronWake now => cronWake now s
  | .work => workerStep s
  | .start =>
    match start s with
    | .ok s1 => s1
    | .error _ => s
  | .beginShutdown =>
    match beginShutdown s with
    | .ok s1 => s1
    | .error _ => s
  | .shutdown =>
    match shutdown s with
    | .ok s1 => s1
    | .error _ => s
  | .startOneThread => startOneThread s
  | .stopOneThread => stopOneThread s

/-- The state after a sequence of operations. -/
def run (s : State) (as : List Action) : State := as.foldl step s

/-- No item promoted from the `DelayedWork` at address `p` sits in a lane or
has been executed. -/
def NotPromoted (p : Ptr) (s : State) : Prop :=
  (∀ l : Lane, ∀ w ∈ s._queue l, w.origin ≠ some p) ∧ ∀ w ∈ s.executed, w.origin ≠ some p

instance (p : Ptr) (s : State) : Decidable (NotPromoted p s) := by
  unfold NotPromoted
  infer_instance

/-- Every address that the scheduler holds (a pending item, the origin of a
lane item or of an executed item) lies below `n`. -/
def AllocatedBelow (n : Ptr) (s : State) : Prop :=
  (∀ q ∈ s._priorityQueue, q < n) ∧
    (∀ l : Lane, ∀ w ∈ s._queue l, ∀ q, w.origin = some q → q < n) ∧
    ∀ w ∈ s.executed, ∀ q, w.origin = some q → q < n

/-- Every address that the scheduler holds has been allocated. -/
def Allocated (s : State) : Prop := AllocatedBelow s.nextPtr s

/-! ## Sequences of operations on handles -/

/-- The handles that are alive, by position, and the `DelayedWork` objects. -/
structure Handles where
  handles : List WorkHandle
  store : Store

/-- An operation of `DelayedWork` or of `WorkHandle`; a handle is named by its
position among the handles that are alive. -/
inductive HandleOp where
  | cancelWork (p : Ptr)
  | make (handle : Option Ptr)
  | cancel (i : Nat)
  | detach (i : Nat)
  | copy (i : Nat)
  | assign (i j : Nat)
  | destroy (i : Nat)
deriving DecidableEq, Repr

/-- The effect of one operation: `cancelWork p` is `DelayedWork::cancel()` on
the object at `p`, `make` constructs a handle from a shared pointer, `copy`
copy-constructs a new handle, `assign i j` assigns handle `j` to handle `i`,
`destroy` runs the destructor and the handle is gone. An operation on a
position that holds no handle does nothing. -/
def HandleOp.apply (s : Handles) : HandleOp → Except Fault Handles
  | .cancelWork p => .ok { s with store := Function.update s.store p (s.store p).cancel }
  | .make handle => .ok { s with handles := s.handles ++ [WorkHandle.ofShared handle] }
  | .cancel i =>
    match s.handles[i]? with
    | none => .ok s
    | some h =>
      match h.cancel s.store with
      | .ok σ => .ok { s with store := σ }
      | .error f => .error f
  | .detach i =>
    match s.handles[i]? with
    | none => .ok s
    | some h => .ok { handles := s.handles.set i (h.detach s.store).1, store := (h.detach s.store).2 }
  | .copy i =>
    match s.handles[i]? with
    | none => .ok s
    | some h => .ok { s with handles := s.handles ++ [h.copy] }
  | .assign i j =>
    match s.handles[i]?, s.handles[j]? with
    | some target, some source => .ok { s with handles := s.handles.set i (target.assign source) }
    | _, _ => .ok s
  | .destroy i =>
    match s.handles[i]? with
    | none => .ok s
    | some h =>
      match h.destroy s.store with
      | .ok σ => .ok { handles := s.handles.eraseIdx i, store := σ }
      | .error f => .error f

/-- A sequence of operations, run until the first one that faults: the state
reached, and the fault if there was one. -/
def runOps (s : Handles) : List HandleOp → Handles × Option Fault
  | [] => (s, none)
  | op :: ops =>
    match op.apply s with
    | .ok s1 => runOps s1 ops
    | .error f => (s, some f)

/-! ## The state probes as calls -/

/-- A call of the const member `isRunning()`: its result and the state of
the scheduler after the call. -/
def callIsRunning (s : State) : Bool × State := (isRunning s, s)

/-- A call of the const member `isStopping()`: its result and the state of
the scheduler after the call. -/
def callIsStopping (s : State) : Bool × State := (isStopping s, s)

/-- A scheduler with three workers in four, not stopping, nothing queued. -/
def threeWorkers : State :=
  { new 1 4 0 0 0 with lifecycle := .Running, _numWorker := 3 }

end Scheduler

namespace transaction

/-! ## SingleCollectionTransactionProxy

The proxy's two constructors and its destructor are in
`Transaction/TransactionProxy.h`. What they call (the transaction registry,
the transaction's own constructor, `addCollection`, the collection name
resolver) is declared in other headers; the registry follows the notes in the
proxy's source, the operations on a transaction's collections are parameters. -/

/-- A `TransactionId`. -/
abbrev TransactionId := Nat

/-- The constant `TransactionId::ZERO`. -/
def TransactionId.ZERO : TransactionId := 0

/-- A collection id `TRI_voc_cid_t`. -/
abbrev Cid := Nat

/-- A database `TRI_vocbase_t`, by number. -/
abbrev Vocbase := Nat

/-- The address of a transaction object (`Methods*`, `SingleCollectionTransaction*`). -/
abbrev TrxPtr := Nat

/-- The enumeration `AccessMode::Type`. -/
inductive AccessModeType where
  | NONE
  | READ
  | WRITE
  | EXCLUSIVE
deriving DecidableEq, Repr

/-- What the proxy reads from a `transaction::Context`: the results of
`getParentTransaction()` and of `vocbase()`. -/
structure Context where
  getParentTransaction : TransactionId
  vocbase : Vocbase
deriving DecidableEq, Repr

/-- A collection registered with a transaction. -/
structure CollectionEntry where
  cid : Cid
  name : Option String
  accessType : AccessModeType
deriving DecidableEq, Repr

/-- The part of a `SingleCollectionTransaction` object that the proxy's calls
act on: the collections added to it. -/
structure Transaction where
  collections : List CollectionEntry
deriving DecidableEq, Repr

/-- An exception thrown by a callee. -/
inductive Error where
  | notInRegistry
  | alreadyInUse
  | dangling
  | failed (code : Nat)
deriving DecidableEq, Repr

/-- An entry of the transaction registry: the transaction object and whether
it is currently opened (in use). -/
structure RegistryEntry where
  trx : TrxPtr
  inUse : Bool
deriving DecidableEq, Repr

/-- The calls that the proxy makes, as they are recorded in the ghost log. -/
inductive Event where
  | opened (id : TransactionId) (trx : TrxPtr)
  | created (trx : TrxPtr)
  | added (trx : TrxPtr) (cid : Cid)
  | closed (trx : TrxPtr)
  | deleted (trx : TrxPtr)
deriving DecidableEq, Repr

/-- The world the proxy acts on: the transaction registry, the transaction
objects that are alive (by address) with the next free address, and the ghost
log of the calls made so far. -/
structure World where
  registry : Vocbase → TransactionId → Option RegistryEntry
  heap : TrxPtr → Option Transaction
  nextPtr : TrxPtr
  log : List Event

/-- The operations of other headers that decide about collections, taken as
parameters: `Methods::addCollection(cid, accessType)`,
`Methods::addCollection(cid, name, accessType)`,
`resolver()->getCollectionId(name)`, and the two constructors of
`SingleCollectionTransaction`. Each may throw. -/
structure Env where
  addCollection : Transaction → Cid → AccessModeType → Except Error Transaction
  addCollectionNamed : Transaction → Cid → String → AccessModeType → Except Error Transaction
  getCollectionId : Transaction → String → Except Error Cid
  constructCid : Context → Cid → AccessModeType → Except Error Transaction
  constructName : Context → String → AccessModeType → Except Error Transaction

/-- Modelled from the spec: `Methods::open(id, vocbase)` and
`TransactionRegistry::open(id, vocbase)` are declared in
`Transaction/Methods.h` and `Transaction/TransactionRegistry.h`; by the note
at both call sites the call throws if the registry does not have the
transaction or if it is already in use. Otherwise the transaction is marked
in use and its address is returned. -/
def Methods.open (id : TransactionId) (vocbase : Vocbase) (w : World) : Except Error TrxPtr × World :=
  match w.registry vocbase id with
  | none => (.error .notInRegistry, w)
  | some e =>
    if e.inUse then (.error .alreadyInUse, w)
    else
      (.ok e.trx,
        { w with
          registry := fun v i =>
            if v = vocbase ∧ i = id then some { e with inUse := true } else w.registry v i
          log := w.log ++ [.opened id e.trx] })

/-- Modelled from the spec: `Methods::close()`, declared in
`Transaction/Methods.h`; by the class comment of the proxy it returns the
transaction to the transaction registry: every entry that holds the
transaction is no longer in use. -/
def close (trx : TrxPtr) (w : World) : World :=
  { w with
    registry := fun v i =>
      match w.registry v i with
      | none => none
      | some e => if e.trx = trx then some { e with inUse := false } else some e
    log := w.log ++ [.closed trx] }

/-- The expression `delete _trx`: the object is destroyed. -/
def delete (trx : TrxPtr) (w : World) : World :=
  { w with
    heap := Function.update w.heap trx none
    log := w.log ++ [.deleted trx] }

/-- The expression `new SingleCollectionTransaction(...)`, the object's
constructor being `make`: on success the object is placed at a fresh
address. -/
def newTransaction (make : Except Error Transaction) (w : World) : Except Error TrxPtr × World :=
  match make with
  | .error e => (.error e, w)
  | .ok t =>
    (.ok w.nextPtr,
      { w with
        heap := Function.update w.heap w.nextPtr (some t)
        nextPtr := w.nextPtr + 1
        log := w.log ++ [.created w.nextPtr] })

/-- A call `_trx->addCollection(...)` whose effect on the object is `add`. -/
def callAddCollection (trx : TrxPtr) (cid : Cid) (add : Transaction → Except Error Transaction)
    (w : World) : Except Error Unit × World :=
  match w.heap trx with
  | none => (.error .dangling, w)
  | some t =>
    match add t with
    | .error e => (.error e, w)
    | .ok t1 =>
      (.ok (),
        { w with
          heap := Function.update w.heap trx (some t1)
          log := w.log ++ [.added trx cid] })

/-- The class `SingleCollectionTransactionProxy`: its two private members. -/
structure SingleCollectionTransactionProxy where
  _trx : TrxPtr
  _wasCreatedHere : Bool
deriving DecidableEq, Repr

namespace SingleCollectionTransactionProxy

/-- Constructor `SingleCollectionTransactionProxy(context, cid, accessType)`.
The result is the constructed proxy or the exception that left the
constructor, together with the world afterwards. -/
def mkCid (env : Env) (context : Context) (cid : Cid) (accessType : AccessModeType)
    (w : World) : Except Error SingleCollectionTransactionProxy × World :=
  let parent := context.getParentTransaction
  if parent ≠ TransactionId.ZERO then
    match Methods.open parent context.vocbase w with
    | (.error e, w1) => (.error e, w1)
    | (.ok trx, w1) =>
      match callAddCollection trx cid (fun t => env.addCollection t cid accessType) w1 with
      | (.error e, w2) => (.error e, w2)
      | (.ok (), w2) => (.ok ⟨trx, false⟩, w2)
  else
    match newTransaction (env.constructCid context cid accessType) w with
    | (.error e, w1) => (.error e, w1)
    | (.ok trx, w1) => (.ok ⟨trx, true⟩, w1)

/-- Constructor `SingleCollectionTransactionProxy(context, name, accessType)`. -/
def mkName (env : Env) (context : Context) (name : String) (accessType : AccessModeType)
    (w : World) : Except Error SingleCollectionTransactionProxy × World :=
  let parent := context.getParentTransaction
  if parent ≠ TransactionId.ZERO then
    match Methods.open parent context.vocbase w with
    | (.error e, w1) => (.error e, w1)
    | (.ok trx, w1) =>
      match w1.heap trx with
      | none => (.error .dangling, w1)
      | some t =>
        match env.getCollectionId t name with
        | .error e => (.error e, w1)
        | .ok cid =>
          match callAddCollection trx cid
              (fun t => env.addCollectionNamed t cid name accessType) w1 with
          | (.error e, w2) => (.error e, w2)
          | (.ok (), w2) => (.ok ⟨trx, false⟩, w2)
  else
    match newTransaction (env.constructName context name accessType) w with
    | (.error e, w1) => (.error e, w1)
    | (.ok trx, w1) => (.ok ⟨trx, true⟩, w1)

/-- Destructor `~SingleCollectionTransactionProxy()`. -/
def destroy (p : SingleCollectionTransactionProxy) (w : World) : World :=
  if p._wasCreatedHere then delete p._trx w else close p._trx w

/-- Member `get()`. -/
def get (p : SingleCollectionTransactionProxy) : TrxPtr := p._trx

end SingleCollectionTransactionProxy

/-- What a successful borrowing construction leaves behind, `w` being the
world before and `w1` the world after: the registry entry `e` of the parent
transaction is now in use, the transaction object is `t1`, no other
transaction object was touched and none was allocated, and the only calls
made are the opening and the addition of the collection `cid`. -/
def Borrowed (w w1 : World) (context : Context) (e : RegistryEntry) (t1 : Transaction)
    (cid : Cid) : Prop :=
  w1.registry context.vocbase context.getParentTransaction = some { e with inUse := true } ∧
    w1.heap e.trx = some t1 ∧
    (∀ q, q ≠ e.trx → w1.heap q = w.heap q) ∧
    w1.nextPtr = w.nextPtr ∧
    w1.log = w.log ++ [.opened context.getParentTransaction e.trx, .added e.trx cid]

/-- What a successful creating construction leaves behind: the new
transaction object `t` sits at the address that was free, the registry is
untouched, and the only call made is the creation. -/
def Created (w w1 : World) (t : Transaction) : Prop :=
  w1.heap w.nextPtr = some t ∧
    (∀ q, q ≠ w.nextPtr → w1.heap q = w.heap q) ∧
    w1.nextPtr = w.nextPtr + 1 ∧
    w1.registry = w.registry ∧
    w1.log = w.log ++ [.created w.nextPtr]

/-- A concrete environment: adding a collection appends it to the
transaction's collections, the only known collection name is `users` with
id 42, and a new transaction starts with its sole collection. -/
def exampleEnv : Env where
  addCollection := fun t cid acc => .ok ⟨t.collections ++ [⟨cid, none, acc⟩]⟩
  addCollectionNamed := fun t cid name acc => .ok ⟨t.collections ++ [⟨cid, some name, acc⟩]⟩
  getCollectionId := fun _ name => if name = "users" then .ok 42 else .error (.failed 1203)
  constructCid := fun _ cid acc => .ok ⟨[⟨cid, none, acc⟩]⟩
  constructName := fun _ name acc => .ok ⟨[⟨42, some name, acc⟩]⟩

/-- A concrete world: database 1 has the ongoing transaction 5 registered,
not in use, its object at address 0 with no collection yet. -/
def exampleWorld : World where
  registry := fun v i => if v = 1 ∧ i = 5 then some ⟨0, false⟩ else none
  heap := fun q => if q = 0 then some ⟨[]⟩ else none
  nextPtr := 1
  log := []

/-- What a borrowing construction that fails after the opening leaves
behind: the registry entry `e` of the parent transaction is in use, every
transaction object is as it was and none was allocated, and the only call
recorded is the opening, so neither a `close()` nor a deletion. -/
def LeftOpen (w w1 : World) (context : Context) (e : RegistryEntry) : Prop :=
  w1.registry context.vocbase context.getParentTransaction = some { e with inUse := true } ∧
    w1.heap = w.heap ∧
    w1.nextPtr = w.nextPtr ∧
    w1.log = w.log ++ [.opened context.getParentTransaction e.trx]

/-- A concrete environment in which the collection cannot be added: both
forms of `addCollection` throw, the resolver knows the name `users`. -/
def refusingEnv : Env where
  addCollection := fun _ _ _ => .error (.failed 1203)
  addCollectionNamed := fun _ _ _ _ => .error (.failed 1203)
  getCollectionId := fun _ name => if name = "users" then .ok 42 else .error (.failed 1203)
  constructCid := fun _ cid acc => .ok ⟨[⟨cid, none, acc⟩]⟩
  constructName := fun _ name acc => .ok ⟨[⟨42, some name, acc⟩]⟩

end transaction

/-! # Properties -/

namespace Scheduler

/-! ## The delayed-work queue -/

/-- On a non-empty container `top()` returns an element of it. -/
theorem pqTop_mem {α : Type} (less : α → α → Bool) (c : List α) (t : α)
    (h : pqTop less c = some t) : t ∈ c := by
  induction c generalizing t with
  | nil => simp [pqTop] at h
  | cons x xs ih =>
    unfold pqTop at h
    cases hx : pqTop less xs with
    | none =>
      rw [hx] at h
      simp only [Option.some.injEq] at h
      simp [h]
    | some y =>
      rw [hx] at h
      simp only at h
      by_cases hl : less x y = true
      · rw [if_pos hl] at h
        simp only [Option.some.injEq] at h
        subst h
        exact List.mem_cons_of_mem _ (ih y hx)
      · rw [if_neg hl] at h
        simp only [Option.some.injEq] at h
        simp [h]

/-- What `_priorityQueue.top()` returns has the greatest address of all
pending items, whatever their due times. -/
theorem DelayedQueue.top_greatest_address (q : DelayedQueue) (t : Ptr)
    (h : q.top = some t) : ∀ p ∈ q, p ≤ t := by
  induction q generalizing t with
  | nil => intro p hp; simp at hp
  | cons x xs ih =>
    unfold DelayedQueue.top pqTop at h
    cases hx : pqTop sharedPtrLess xs with
    | none =>
      rw [hx] at h
      simp only [Option.some.injEq] at h
      cases xs with
      | nil => intro p hp; simp at hp; exact le_of_eq (hp.trans h)
      | cons y ys =>
        exfalso
        unfold pqTop at hx
        cases hy : pqTop sharedPtrLess ys with
        | none => rw [hy] at hx; simp at hx
        | some z => rw [hy] at hx; simp only at hx; split at hx <;> simp at hx
    | some y =>
      rw [hx] at h
      simp only [sharedPtrLess, decide_eq_true_eq] at h
      have hy := ih y hx
      intro p hp
      rcases List.mem_cons.mp hp with rfl | hp
      · by_cases hl : p < y
        · rw [if_pos hl] at h
          simp only [Option.some.injEq] at h
          subst h
          exact le_of_lt hl
        · rw [if_neg hl] at h
          simp only [Option.some.injEq] at h
          subst h
          exact le_refl _
      · have hpy := hy p hp
        by_cases hl : x < y
        · rw [if_pos hl] at h
          simp only [Option.some.injEq] at h
          subst h
          exact hpy
        · rw [if_neg hl] at h
          simp only [Option.some.injEq] at h
          subst h
          exact le_trans hpy (not_lt.mp hl)

/-- C1, evaluated on the code: with two items pending, the one at address 1
due at tick 10 and the one at address 2 due at tick 20, `_priorityQueue.top()`
is the item at address 2, whose due time is the later one, and the two
successive pops return the items in decreasing due order. The top would be
the same item were the pointed-to objects compared with
`DelayedWork::operator<`, the top of a `std::priority_queue` being a greatest
element. -/
theorem priorityQueue_top_is_not_earliest :
    DelayedQueue.top (DelayedQueue.push 2 (DelayedQueue.push 1 [])) = some 2 ∧
      (twoPending 1)._due < (twoPending 2)._due ∧
      DelayedQueue.top (DelayedQueue.pop (DelayedQueue.push 2 (DelayedQueue.push 1 []))) =
        some 1 ∧
      (twoPending 2)._due > (twoPending 1)._due ∧
      pqTop (fun a b => (twoPending a).lt (twoPending b))
        (DelayedQueue.push 2 (DelayedQueue.push 1 [])) = some 2 := by
  decide

/-! ## WorkHandle and DelayedWork -/

/-- C2: destroying a handle that holds a `DelayedWork` at address `p` succeeds
and leaves the flag `_cancelled` of that `DelayedWork` set to `true`. -/
theorem WorkHandle.destroy_cancels (σ : Store) (p : Ptr) :
    ∃ σ1, (WorkHandle.ofShared (some p)).destroy σ = .ok σ1 ∧ (σ1 p)._cancelled = true := by
  refine ⟨Function.update σ p (σ p).cancel, ?_, ?_⟩
  · simp [WorkHandle.destroy, WorkHandle.ofShared, WorkHandle.cancel]
  · simp [DelayedWork.cancel]

/-- C3: `detach()` followed by the destruction of the handle succeeds and
leaves the whole store as it was before `detach()`; so the flag `_cancelled`
of the `DelayedWork` the handle held is unchanged, and stays `false` when it
was `false`. -/
theorem WorkHandle.detach_then_destroy_keeps_flag (σ : Store) (p : Ptr) :
    ∃ σ1, ((WorkHandle.ofShared (some p)).detach σ).1.destroy
        ((WorkHandle.ofShared (some p)).detach σ).2 = .ok σ1 ∧ σ1 = σ ∧
      (σ1 p)._cancelled = (σ p)._cancelled ∧
      ((σ p)._cancelled = false → (σ1 p)._cancelled = false) := by
  refine ⟨σ, ?_, rfl, rfl, fun hc => hc⟩
  simp [WorkHandle.detach, WorkHandle.destroy]

/-- C4: `cancel()` is idempotent. On a `DelayedWork`, cancelling twice gives
the same object as cancelling once, with `_cancelled` true. Through a handle
holding the address `p`, the first call succeeds, the second call succeeds
with the same store, and in it `_cancelled` of `p` is true. -/
theorem cancel_idempotent (w : DelayedWork) (σ : Store) (p : Ptr) :
    w.cancel.cancel = w.cancel ∧ w.cancel._cancelled = true ∧
      ∃ σ1, (WorkHandle.ofShared (some p)).cancel σ = .ok σ1 ∧
        (WorkHandle.ofShared (some p)).cancel σ1 = .ok σ1 ∧ (σ1 p)._cancelled = true := by
  refine ⟨rfl, rfl, Function.update σ p (σ p).cancel, rfl, ?_, ?_⟩
  · simp only [WorkHandle.cancel, WorkHandle.ofShared, Function.update_same]
    congr 1
    funext x
    by_cases hx : x = p
    · subst hx; simp [DelayedWork.cancel]
    · simp [Function.update_noteq hx]
  · simp [DelayedWork.cancel]

/-- The dequeue decision on any lane contents: the item returned is the head
of the first non-empty lane, and only that lane loses it. -/
theorem getWork_first_nonempty (q : Lane → List WorkItem) :
    (∀ w l q1, getWork q = some (w, l, q1) →
      (∀ l1 : Lane, l1 < l → q l1 = []) ∧ (q l).head? = some w ∧
        q1 = Function.update q l (q l).tail) ∧
    ((∃ l, q l ≠ []) → (getWork q).isSome = true) := by
  constructor
  · intro w l q1 h
    unfold getWork at h
    cases h0 : q 0 with
    | cons a rest =>
      rw [h0] at h
      simp only [Option.some.injEq, Prod.mk.injEq] at h
      obtain ⟨rfl, rfl, rfl⟩ := h
      refine ⟨?_, by simp [h0], by simp [h0]⟩
      intro l1 hl
      exact absurd hl (Fin.not_lt_zero l1)
    | nil =>
      rw [h0] at h
      simp only at h
      cases h1 : q 1 with
      | cons a rest =>
        rw [h1] at h
        simp only [Option.some.injEq, Prod.mk.injEq] at h
        obtain ⟨rfl, rfl, rfl⟩ := h
        refine ⟨?_, by simp [h1], by simp [h1]⟩
        intro l1 hl
        have : l1 = 0 := by revert hl; revert l1; decide
        rw [this]; exact h0
      | nil =>
        rw [h1] at h
        simp only at h
        cases h2 : q 2 with
        | cons a rest =>
          rw [h2] at h
          simp only [Option.some.injEq, Prod.mk.injEq] at h
          obtain ⟨rfl, rfl, rfl⟩ := h
          refine ⟨?_, by simp [h2], by simp [h2]⟩
          intro l1 hl
          have : l1 = 0 ∨ l1 = 1 := by revert hl; revert l1; decide
          rcases this with rfl | rfl
          · exact h0
          · exact h1
        | nil =>
          rw [h2] at h
          simp at h
  · rintro ⟨l, hl⟩
    unfold getWork
    cases h0 : q 0 with
    | cons a rest => simp
    | nil =>
      cases h1 : q 1 with
      | cons a rest => simp
      | nil =>
        cases h2 : q 2 with
        | cons a rest => simp
        | nil =>
          exfalso
          have h3 : ∀ k : Lane, k = 0 ∨ k = 1 ∨ k = 2 := by decide
          rcases h3 l with rfl | rfl | rfl
          · exact hl h0
          · exact hl h1
          · exact hl h2

/-- C6: after any sequence of submissions to the three lanes, from any state,
the dequeue decision `getWork` returns the head of a lane all of whose
higher-priority lanes are empty, removes it from that lane only, and returns
an item whenever some lane is non-empty. -/
theorem getWork_strict_priority (s : State) (subs : List (RequestPriority × Handler)) :
    (∀ w l q1, getWork (submitAll s subs)._queue = some (w, l, q1) →
      (∀ l1 : Lane, l1 < l → (submitAll s subs)._queue l1 = []) ∧
        ((submitAll s subs)._queue l).head? = some w ∧
        q1 = Function.update (submitAll s subs)._queue l ((submitAll s subs)._queue l).tail) ∧
    ((∃ l, (submitAll s subs)._queue l ≠ []) →
      (getWork (submitAll s subs)._queue).isSome = true) :=
  getWork_first_nonempty (submitAll s subs)._queue

/-! ## How one operation changes the fields of the state -/

/-- An induction principle for one wake of the cron thread: a property that
holds once the due items are popped, and that every promotion of a due,
not cancelled item preserves, holds after the wake. -/
theorem cronWake_induct (P : State → Prop) (now : TimePoint) (s : State)
    (h0 : P { s with _priorityQueue :=
      s._priorityQueue.filter (fun p => !decide ((s.store p)._due ≤ now)) })
    (hstep : ∀ acc p, p ∈ s._priorityQueue → (s.store p)._due ≤ now →
      (s.store p)._cancelled = false → P acc →
      P (enqueue 1 ⟨(s.store p)._handler, some p⟩ acc).2) :
    P (cronWake now s) := by
  unfold cronWake
  have hmem : ∀ p ∈ cronDue now s, p ∈ s._priorityQueue ∧ (s.store p)._due ≤ now := by
    intro p hp
    unfold cronDue at hp
    rw [(List.perm_insertionSort _ _).mem_iff, List.mem_filter, List.mem_reverse] at hp
    exact ⟨hp.1, of_decide_eq_true hp.2⟩
  generalize cronDue now s = l at hmem
  simp only
  generalize ({ s with _priorityQueue :=
      s._priorityQueue.filter (fun p => !decide ((s.store p)._due ≤ now)) } : State) = acc at h0
  induction l generalizing acc with
  | nil => exact h0
  | cons p ps ih =>
    rw [List.foldl_cons]
    apply ih (fun q hq => hmem q (List.mem_cons_of_mem _ hq))
    cases hc : (s.store p)._cancelled with
    | true => simpa using h0
    | false =>
      simp only [Bool.false_eq_true, if_false]
      exact hstep acc p (hmem p (List.mem_cons_self _ _)).1 (hmem p (List.mem_cons_self _ _)).2 hc h0

/-- The lanes after `enqueue`: unchanged, or the lane with the item appended. -/
theorem enqueue_queue (lane : Lane) (item : WorkItem) (s : State) (l : Lane) (w : WorkItem)
    (h : w ∈ (enqueue lane item s).2._queue l) : w ∈ s._queue l ∨ w = item := by
  unfold enqueue at h
  split at h
  · exact Or.inl h
  · simp only at h
    by_cases hl : l = lane
    · subst hl
      rw [Function.update_same, List.mem_append, List.mem_singleton] at h
      exact h
    · rw [Function.update_noteq hl] at h
      exact Or.inl h

/-- The fields that `enqueue` leaves alone. -/
theorem enqueue_frame (lane : Lane) (item : WorkItem) (s : State) :
    (enqueue lane item s).2.lifecycle = s.lifecycle ∧
      (enqueue lane item s).2.minThreads = s.minThreads ∧
      (enqueue lane item s).2._maxNumWorker = s._maxNumWorker ∧
      (enqueue lane item s).2._numWorker = s._numWorker ∧
      (enqueue lane item s).2.store = s.store ∧
      (enqueue lane item s).2.nextPtr = s.nextPtr ∧
      (enqueue lane item s).2.executed = s.executed ∧
      (enqueue lane item s).2._priorityQueue = s._priorityQueue := by
  unfold enqueue
  split <;> simp

/-- The fields that a wake of the cron thread leaves alone. -/
theorem cronWake_frame (now : TimePoint) (s : State) :
    (cronWake now s).lifecycle = s.lifecycle ∧
      (cronWake now s).minThreads = s.minThreads ∧
      (cronWake now s)._maxNumWorker = s._maxNumWorker ∧
      (cronWake now s)._numWorker = s._numWorker ∧
      (cronWake now s).store = s.store ∧
      (cronWake now s).nextPtr = s.nextPtr ∧
      (cronWake now s).executed = s.executed := by
  apply cronWake_induct
    (fun t => t.lifecycle = s.lifecycle ∧ t.minThreads = s.minThreads ∧
      t._maxNumWorker = s._maxNumWorker ∧ t._numWorker = s._numWorker ∧
      t.store = s.store ∧ t.nextPtr = s.nextPtr ∧ t.executed = s.executed)
  · simp
  · intro acc p _ _ _ h
    obtain ⟨e1, e2, e3, e4, e5, e6, e7, _⟩ := enqueue_frame 1 ⟨(s.store p)._handler, some p⟩ acc
    obtain ⟨a1, a2, a3, a4, a5, a6, a7⟩ := h
    exact ⟨e1.trans a1, e2.trans a2, e3.trans a3, e4.trans a4, e5.trans a5, e6.trans a6,
      e7.trans a7⟩

/-- The state after a delayed submission, in closed form. -/
theorem step_postDelay (s : State) (now : TimePoint) (delay : Duration) (callback : Handler) :
    step s (.postDelay now delay callback) =
      if s.lifecycle = .Running then
        { s with
          store := Function.update s.store s.nextPtr (DelayedWork.mkCopy now callback delay)
          nextPtr := s.nextPtr + 1
          _priorityQueue := s._priorityQueue.push s.nextPtr }
      else s := by
  by_cases h : s.lifecycle = .Running <;> simp [step, postDelay, h]

/-- The state after a handle is cancelled or destroyed, in closed form. -/
theorem step_cancel_destroy (s : State) (h : WorkHandle) :
    (step s (.cancel h) =
      match h._handle with
      | none => s
      | some p => { s with store := Function.update s.store p (s.store p).cancel }) ∧
    (step s (.destroy h) =
      match h._handle with
      | none => s
      | some p => { s with store := Function.update s.store p (s.store p).cancel }) := by
  cases hh : h._handle <;> simp [step, WorkHandle.cancel, WorkHandle.destroy, hh]

/-- The state after a worker's turn: unchanged, or one lane lost its head and
that item is now executed. -/
theorem step_work (s : State) :
    step s .work = s ∨
      ∃ (l : Lane) (w : WorkItem) (rest : List WorkItem), s._queue l = w :: rest ∧
        step s .work =
          { s with _queue := Function.update s._queue l rest, executed := s.executed ++ [w] } := by
  simp only [step, workerStep]
  by_cases hz : s._numWorker = 0
  · rw [if_pos hz]; exact Or.inl rfl
  rw [if_neg hz]
  cases hg : getWork s._queue with
  | none => exact Or.inl rfl
  | some r =>
    obtain ⟨w, l, q1⟩ := r
    right
    obtain ⟨_, hhead, hq1⟩ := (getWork_first_nonempty s._queue).1 w l q1 hg
    cases hl : s._queue l with
    | nil => rw [hl] at hhead; simp at hhead
    | cons a rest =>
      rw [hl] at hhead hq1
      simp only [List.head?_cons, Option.some.injEq] at hhead
      subst hhead
      exact ⟨l, a, rest, hl, by simp [hq1]⟩

/-- The lifecycle state after one operation: unchanged, or moved one state
forward by `start`, `beginShutdown` or `shutdown`. -/
theorem step_lifecycle (s : State) (a : Action) :
    (step s a).lifecycle = s.lifecycle ∨
      (s.lifecycle = .Created ∧ (step s a).lifecycle = .Running) ∨
      (s.lifecycle = .Running ∧ (step s a).lifecycle = .ShuttingDown) ∨
      (s.lifecycle = .ShuttingDown ∧ (step s a).lifecycle = .Stopped) := by
  cases a with
  | queue prio handler => exact Or.inl (enqueue_frame _ _ s).1
  | postDelay now delay callback =>
    left; rw [step_postDelay]; split <;> rfl
  | cancel h =>
    left; rw [(step_cancel_destroy s h).1]; split <;> rfl
  | destroy h =>
    left; rw [(step_cancel_destroy s h).2]; split <;> rfl
  | cronWake now => exact Or.inl (cronWake_frame now s).1
  | work =>
    left
    rcases step_work s with e | ⟨l, w, rest, _, e⟩ <;> rw [e]
  | start =>
    simp only [step, start]
    cases hl : s.lifecycle <;> simp [hl]
  | beginShutdown =>
    simp only [step, beginShutdown]
    cases hl : s.lifecycle <;> simp [hl]
  | shutdown =>
    simp only [step, shutdown]
    cases hl : s.lifecycle <;> simp [hl]
  | startOneThread =>
    left; simp only [step, startOneThread]; split <;> rfl
  | stopOneThread =>
    left; simp only [step, stopOneThread]; split <;> rfl

/-- Once submissions are turned away they stay turned away. -/
theorem run_rejecting (as : List Action) (s : State) (h : rejecting s = true) :
    rejecting (run s as) = true := by
  induction as generalizing s with
  | nil => exact h
  | cons a as ih =>
    apply ih
    have hl := step_lifecycle s a
    unfold rejecting at h ⊢
    rcases hl with e | ⟨e, _⟩ | ⟨e, e1⟩ | ⟨e, e1⟩
    · rw [e]; exact h
    · rw [e] at h; simp at h
    · rw [e1]
    · rw [e1]

/-- C8, as amended: on a scheduler that has been started (its state is not
`Created`), after `beginShutdown()` and whatever operations follow it, `queue(prio, task)`
returns false and leaves the state as it is, and `postDelay` fails; and in any
state at all `queue` returns false exactly in `ShuttingDown` and `Stopped`,
while `postDelay` fails exactly when the state is not `Running`. -/
theorem submissions_rejected_after_beginShutdown (s : State)
    (hstarted : s.lifecycle ≠ .Created) (as : List Action) (prio : RequestPriority)
    (handler : Handler) (now : TimePoint) (delay : Duration) :
    (queue prio handler (run (step s .beginShutdown) as)).1 = false ∧
      (queue prio handler (run (step s .beginShutdown) as)).2 = run (step s .beginShutdown) as ∧
      postDelay now delay handler (run (step s .beginShutdown) as) = .error .RejectedSubmission ∧
      (∀ t : State, (queue prio handler t).1 = false ↔
        (t.lifecycle = .ShuttingDown ∨ t.lifecycle = .Stopped)) ∧
      ∀ t : State, (∃ e, postDelay now delay handler t = .error e) ↔
        t.lifecycle ≠ .Running := by
  have h1 : rejecting (step s .beginShutdown) = true := by
    simp only [step, beginShutdown, rejecting]
    cases hl : s.lifecycle <;> simp_all
  have h2 := run_rejecting as _ h1
  generalize run (step s .beginShutdown) as = s1 at h2
  refine ⟨?_, ?_, ?_, ?_, ?_⟩
  · simp [queue, enqueue, h2]
  · simp [queue, enqueue, h2]
  · unfold rejecting at h2
    unfold postDelay
    cases hl : s1.lifecycle <;> simp_all
  · intro t
    unfold queue enqueue rejecting
    cases hl : t.lifecycle <;> simp
  · intro t
    unfold postDelay
    cases hl : t.lifecycle <;> simp

/-- The worker bounds: the number of workers lies between `minThreads` and
`_maxNumWorker`. -/
theorem step_bounds (s : State) (a : Action) (ha : a ≠ .shutdown)
    (hb : s.minThreads ≤ s._numWorker ∧ s._numWorker ≤ s._maxNumWorker) :
    (step s a).minThreads = s.minThreads ∧ (step s a)._maxNumWorker = s._maxNumWorker ∧
      s.minThreads ≤ (step s a)._numWorker ∧ (step s a)._numWorker ≤ s._maxNumWorker := by
  obtain ⟨hlo, hhi⟩ := hb
  cases a with
  | queue prio handler =>
    obtain ⟨_, e2, e3, e4, _⟩ := enqueue_frame prio.lane ⟨handler, none⟩ s
    simp only [step, queue]
    rw [e2, e3, e4]
    exact ⟨rfl, rfl, hlo, hhi⟩
  | postDelay now delay callback =>
    rw [step_postDelay]; split <;> exact ⟨rfl, rfl, hlo, hhi⟩
  | cancel h =>
    rw [(step_cancel_destroy s h).1]; split <;> exact ⟨rfl, rfl, hlo, hhi⟩
  | destroy h =>
    rw [(step_cancel_destroy s h).2]; split <;> exact ⟨rfl, rfl, hlo, hhi⟩
  | cronWake now =>
    obtain ⟨_, e2, e3, e4, _⟩ := cronWake_frame now s
    simp only [step]
    rw [e2, e3, e4]
    exact ⟨rfl, rfl, hlo, hhi⟩
  | work =>
    rcases step_work s with e | ⟨l, w, rest, _, e⟩ <;> rw [e] <;> exact ⟨rfl, rfl, hlo, hhi⟩
  | start =>
    simp only [step, start]
    cases hl : s.lifecycle
    · exact ⟨rfl, rfl, le_refl _, le_trans hlo hhi⟩
    all_goals exact ⟨rfl, rfl, hlo, hhi⟩
  | beginShutdown =>
    simp only [step, beginShutdown]
    cases hl : s.lifecycle <;> exact ⟨rfl, rfl, hlo, hhi⟩
  | shutdown => exact absurd rfl ha
  | startOneThread =>
    simp only [step, startOneThread]
    split
    · exact ⟨rfl, rfl, Nat.le_succ_of_le hlo, by assumption⟩
    · exact ⟨rfl, rfl, hlo, hhi⟩
  | stopOneThread =>
    simp only [step, stopOneThread]
    split
    · rename_i hlt
      exact ⟨rfl, rfl, Nat.le_sub_one_of_lt hlt, le_trans (Nat.sub_le _ _) hhi⟩
    · exact ⟨rfl, rfl, hlo, hhi⟩

/-- The worker bounds hold along any sequence of operations without
`shutdown`. -/
theorem run_bounds (as : List Action) (s : State) (has : Action.shutdown ∉ as)
    (hb : s.minThreads ≤ s._numWorker ∧ s._numWorker ≤ s._maxNumWorker) :
    (run s as).minThreads = s.minThreads ∧ (run s as)._maxNumWorker = s._maxNumWorker ∧
      s.minThreads ≤ (run s as)._numWorker ∧ (run s as)._numWorker ≤ s._maxNumWorker := by
  induction as generalizing s with
  | nil => exact ⟨rfl, rfl, hb.1, hb.2⟩
  | cons a as ih =>
    have ha : a ≠ .shutdown := fun e => has (by simp [e])
    obtain ⟨e1, e2, b1, b2⟩ := step_bounds s a ha hb
    have := ih (step s a) (fun hm => has (List.mem_cons_of_mem _ hm))
      ⟨by rw [e1]; exact b1, by rw [e2]; exact b2⟩
    rw [e1, e2] at this
    exact this

/-- C9: with `minThreads ≤ maxThreads`, `start()` on a freshly constructed
scheduler succeeds, and in every state reached from there by operations
other than `shutdown` (the steps `startOneThread` and `stopOneThread` among
them) the number of workers lies in `[minThreads, maxThreads]`. -/
theorem numWorker_within_bounds (minThreads maxThreads maxQueueSize fifo1Size fifo2Size : Nat)
    (hcfg : minThreads ≤ maxThreads) (as : List Action) (has : Action.shutdown ∉ as) :
    ∃ s1, start (new minThreads maxThreads maxQueueSize fifo1Size fifo2Size) = .ok s1 ∧
      minThreads ≤ (run s1 as)._numWorker ∧ (run s1 as)._numWorker ≤ maxThreads := by
  refine ⟨_, rfl, ?_⟩
  have h := run_bounds as
    { new minThreads maxThreads maxQueueSize fifo1Size fifo2Size with
      lifecycle := .Running, _numWorker := minThreads } has ⟨le_refl _, hcfg⟩
  exact ⟨h.2.2.1, h.2.2.2⟩

/-! ## Delayed work that is cancelled in time -/

/-- No operation lowers the next free address, and an allocated `DelayedWork`
keeps its due time and, once cancelled, stays cancelled. -/
theorem step_store (s : State) (a : Action) (p : Ptr) (hp : p < s.nextPtr) :
    p < (step s a).nextPtr ∧ ((step s a).store p)._due = (s.store p)._due ∧
      ((s.store p)._cancelled = true → ((step s a).store p)._cancelled = true) := by
  have hcancel : ∀ q : Ptr,
      (Function.update s.store q (s.store q).cancel p)._due = (s.store p)._due ∧
      ((s.store p)._cancelled = true →
        (Function.update s.store q (s.store q).cancel p)._cancelled = true) := by
    intro q
    by_cases hq : p = q
    · subst hq; simp [DelayedWork.cancel]
    · simp [Function.update_noteq hq]
  cases a with
  | queue prio handler =>
    obtain ⟨_, _, _, _, e5, e6, _⟩ := enqueue_frame prio.lane ⟨handler, none⟩ s
    simp only [step, queue]
    rw [e5, e6]
    exact ⟨hp, rfl, fun h => h⟩
  | postDelay now delay callback =>
    rw [step_postDelay]
    split
    · have hne : p ≠ s.nextPtr := Nat.ne_of_lt hp
      refine ⟨Nat.lt_succ_of_lt hp, ?_, ?_⟩ <;> simp [Function.update_noteq hne]
    · exact ⟨hp, rfl, fun h => h⟩
  | cancel h =>
    rw [(step_cancel_destroy s h).1]
    split
    · exact ⟨hp, rfl, fun h => h⟩
    · exact ⟨hp, (hcancel _).1, (hcancel _).2⟩
  | destroy h =>
    rw [(step_cancel_destroy s h).2]
    split
    · exact ⟨hp, rfl, fun h => h⟩
    · exact ⟨hp, (hcancel _).1, (hcancel _).2⟩
  | cronWake now =>
    obtain ⟨_, _, _, _, e5, e6, _⟩ := cronWake_frame now s
    simp only [step]
    rw [e5, e6]
    exact ⟨hp, rfl, fun h => h⟩
  | work =>
    rcases step_work s with e | ⟨l, w, rest, _, e⟩ <;> rw [e] <;> exact ⟨hp, rfl, fun h => h⟩
  | start =>
    simp only [step, start]
    cases hl : s.lifecycle <;> exact ⟨hp, rfl, fun h => h⟩
  | beginShutdown =>
    simp only [step, beginShutdown]
    cases hl : s.lifecycle <;> exact ⟨hp, rfl, fun h => h⟩
  | shutdown =>
    simp only [step, shutdown]
    cases hl : s.lifecycle <;> exact ⟨hp, rfl, fun h => h⟩
  | startOneThread =>
    simp only [step, startOneThread]
    split <;> exact ⟨hp, rfl, fun h => h⟩
  | stopOneThread =>
    simp only [step, stopOneThread]
    split <;> exact ⟨hp, rfl, fun h => h⟩

/-- An operation does not promote the `DelayedWork` at `p`, provided that a
wake of the cron thread finds it cancelled or not yet due. -/
theorem step_notPromoted (s : State) (a : Action) (p : Ptr) (hn : NotPromoted p s)
    (hg : ∀ t, a = .cronWake t → (s.store p)._cancelled = true ∨ t < (s.store p)._due) :
    NotPromoted p (step s a) := by
  obtain ⟨hq, he⟩ := hn
  cases a with
  | queue prio handler =>
    simp only [step, queue]
    refine ⟨?_, ?_⟩
    · intro l w hw
      rcases enqueue_queue _ _ _ _ _ hw with h | h
      · exact hq l w h
      · subst h; simp
    · rw [(enqueue_frame prio.lane ⟨handler, none⟩ s).2.2.2.2.2.2.1]; exact he
  | postDelay now delay callback =>
    rw [step_postDelay]; split <;> exact ⟨hq, he⟩
  | cancel h =>
    rw [(step_cancel_destroy s h).1]; split <;> exact ⟨hq, he⟩
  | destroy h =>
    rw [(step_cancel_destroy s h).2]; split <;> exact ⟨hq, he⟩
  | cronWake now =>
    simp only [step]
    apply cronWake_induct (fun t => NotPromoted p t)
    · exact ⟨hq, he⟩
    · intro acc q _ hdue hnc hacc
      refine ⟨?_, ?_⟩
      · intro l w hw
        rcases enqueue_queue _ _ _ _ _ hw with h | h
        · exact hacc.1 l w h
        · subst h
          simp only [ne_eq, Option.some.injEq]
          intro hqp
          subst hqp
          rcases hg now rfl with hc | hlt
          · rw [hc] at hnc; exact Bool.noConfusion hnc
          · exact absurd hdue (not_le.mpr hlt)
      · rw [(enqueue_frame 1 ⟨(s.store q)._handler, some q⟩ acc).2.2.2.2.2.2.1]; exact hacc.2
  | work =>
    rcases step_work s with e | ⟨l, w, rest, hl, e⟩ <;> rw [e]
    · exact ⟨hq, he⟩
    · refine ⟨?_, ?_⟩
      · intro l1 w1 hw1
        simp only at hw1
        by_cases h1 : l1 = l
        · subst h1
          rw [Function.update_same] at hw1
          exact hq l1 w1 (by rw [hl]; exact List.mem_cons_of_mem _ hw1)
        · rw [Function.update_noteq h1] at hw1
          exact hq l1 w1 hw1
      · intro w1 hw1
        simp only [List.mem_append, List.mem_singleton] at hw1
        rcases hw1 with h | h
        · exact he w1 h
        · subst h; exact hq l w1 (by rw [hl]; exact List.mem_cons_self _ _)
  | start =>
    simp only [step, start]
    cases hl : s.lifecycle <;> exact ⟨hq, he⟩
  | beginShutdown =>
    simp only [step, beginShutdown]
    cases hl : s.lifecycle <;> exact ⟨hq, he⟩
  | shutdown =>
    simp only [step, shutdown]
    cases hl : s.lifecycle
    · exact ⟨hq, he⟩
    · exact ⟨hq, he⟩
    · refine ⟨fun l w hw => absurd hw (List.not_mem_nil w), ?_⟩
      intro w hw
      simp only [List.mem_append] at hw
      rcases hw with h | h | h | h
      · exact he w h
      · exact hq 0 w h
      · exact hq 1 w h
      · exact hq 2 w h
    · exact ⟨hq, he⟩
  | startOneThread =>
    simp only [step, startOneThread]
    split <;> exact ⟨hq, he⟩
  | stopOneThread =>
    simp only [step, stopOneThread]
    split <;> exact ⟨hq, he⟩

/-- Raising the bound keeps `AllocatedBelow`. -/
theorem AllocatedBelow.mono (n m : Ptr) (s : State) (hnm : n ≤ m) (h : AllocatedBelow n s) :
    AllocatedBelow m s :=
  ⟨fun q hq => lt_of_lt_of_le (h.1 q hq) hnm,
    fun l w hw q ho => lt_of_lt_of_le (h.2.1 l w hw q ho) hnm,
    fun w hw q ho => lt_of_lt_of_le (h.2.2 w hw q ho) hnm⟩

/-- A freshly constructed scheduler holds no address. -/
theorem new_allocated (minThreads maxThreads maxQueueSize fifo1Size fifo2Size : Nat) :
    Allocated (new minThreads maxThreads maxQueueSize fifo1Size fifo2Size) := by
  refine ⟨?_, ?_, ?_⟩ <;> simp [new]

/-- Every operation keeps the addresses held by the scheduler allocated. -/
theorem step_allocated (s : State) (a : Action) (h : Allocated s) : Allocated (step s a) := by
  obtain ⟨hpq, hq, he⟩ := h
  cases a with
  | queue prio handler =>
    obtain ⟨_, _, _, _, _, e6, e7, e8⟩ := enqueue_frame prio.lane ⟨handler, none⟩ s
    simp only [step, queue]
    refine ⟨?_, ?_, ?_⟩
    · rw [e6, e8]; exact hpq
    · intro l w hw q ho
      rw [e6]
      rcases enqueue_queue _ _ _ _ _ hw with h1 | h1
      · exact hq l w h1 q ho
      · subst h1; simp at ho
    · rw [e6, e7]; exact he
  | postDelay now delay callback =>
    rw [step_postDelay]
    split
    · refine AllocatedBelow.mono s.nextPtr.succ _ _ (le_refl _) ⟨?_, ?_, ?_⟩
      · intro q hq1
        simp only [DelayedQueue.push, pqPush, List.mem_cons] at hq1
        rcases hq1 with rfl | hq1
        · exact Nat.lt_succ_self _
        · exact Nat.lt_succ_of_lt (hpq q hq1)
      · intro l w hw q ho
        exact Nat.lt_succ_of_lt (hq l w hw q ho)
      · intro w hw q ho
        exact Nat.lt_succ_of_lt (he w hw q ho)
    · exact ⟨hpq, hq, he⟩
  | cancel h =>
    rw [(step_cancel_destroy s h).1]; split <;> exact ⟨hpq, hq, he⟩
  | destroy h =>
    rw [(step_cancel_destroy s h).2]; split <;> exact ⟨hpq, hq, he⟩
  | cronWake now =>
    simp only [step]
    unfold Allocated
    rw [(cronWake_frame now s).2.2.2.2.2.1]
    apply cronWake_induct (fun t => AllocatedBelow s.nextPtr t)
    · exact ⟨fun q hq1 => hpq q (List.mem_of_mem_filter hq1), hq, he⟩
    · intro acc p hp _ _ hacc
      obtain ⟨_, _, _, _, _, _, e7, e8⟩ := enqueue_frame 1 ⟨(s.store p)._handler, some p⟩ acc
      refine ⟨?_, ?_, ?_⟩
      · rw [e8]; exact hacc.1
      · intro l w hw q ho
        rcases enqueue_queue _ _ _ _ _ hw with h1 | h1
        · exact hacc.2.1 l w h1 q ho
        · subst h1
          simp only [Option.some.injEq] at ho
          subst ho
          exact hpq _ hp
      · rw [e7]; exact hacc.2.2
  | work =>
    rcases step_work s with e | ⟨l, w, rest, hl, e⟩ <;> rw [e]
    · exact ⟨hpq, hq, he⟩
    · refine ⟨hpq, ?_, ?_⟩
      · intro l1 w1 hw1 q ho
        simp only at hw1
        by_cases h1 : l1 = l
        · subst h1
          rw [Function.update_same] at hw1
          exact hq l1 w1 (by rw [hl]; exact List.mem_cons_of_mem _ hw1) q ho
        · rw [Function.update_noteq h1] at hw1
          exact hq l1 w1 hw1 q ho
      · intro w1 hw1 q ho
        simp only [List.mem_append, List.mem_singleton] at hw1
        rcases hw1 with h1 | h1
        · exact he w1 h1 q ho
        · subst h1; exact hq l w1 (by rw [hl]; exact List.mem_cons_self _ _) q ho
  | start =>
    simp only [step, start]
    cases hl : s.lifecycle <;> exact ⟨hpq, hq, he⟩
  | beginShutdown =>
    simp only [step, beginShutdown]
    cases hl : s.lifecycle <;> exact ⟨hpq, hq, he⟩
  | shutdown =>
    simp only [step, shutdown]
    cases hl : s.lifecycle
    · exact ⟨hpq, hq, he⟩
    · exact ⟨hpq, hq, he⟩
    · refine ⟨fun q hq1 => absurd hq1 (List.not_mem_nil q),
        fun l w hw => absurd hw (List.not_mem_nil w), ?_⟩
      intro w hw q ho
      simp only [List.mem_append] at hw
      rcases hw with h | h | h | h
      · exact he w h q ho
      · exact hq 0 w h q ho
      · exact hq 1 w h q ho
      · exact hq 2 w h q ho
    · exact ⟨hpq, hq, he⟩
  | startOneThread =>
    simp only [step, startOneThread]
    split <;> exact ⟨hpq, hq, he⟩
  | stopOneThread =>
    simp only [step, stopOneThread]
    split <;> exact ⟨hpq, hq, he⟩

/-- Every state reached from an allocated one is allocated. -/
theorem run_allocated (as : List Action) (s : State) (h : Allocated s) :
    Allocated (run s as) := by
  induction as generalizing s with
  | nil => exact h
  | cons a as ih => exact ih (step s a) (step_allocated s a h)

/-- While every wake of the cron thread comes before the due time `d` of the
allocated, not yet promoted `DelayedWork` at `p`, it stays not promoted and
keeps its due time. -/
theorem run_before_due (as : List Action) (s : State) (p : Ptr) (d : TimePoint)
    (hp : p < s.nextPtr) (hd : (s.store p)._due = d) (hn : NotPromoted p s)
    (hw : ∀ t, Action.cronWake t ∈ as → t < d) :
    p < (run s as).nextPtr ∧ ((run s as).store p)._due = d ∧ NotPromoted p (run s as) := by
  induction as generalizing s with
  | nil => exact ⟨hp, hd, hn⟩
  | cons a as ih =>
    obtain ⟨h1, h2, _⟩ := step_store s a p hp
    refine ih (step s a) h1 (h2.trans hd) ?_ (fun t ht => hw t (List.mem_cons_of_mem _ ht))
    apply step_notPromoted s a p hn
    intro t ht
    right
    rw [hd]
    exact hw t (by simp [ht])

/-- Once the allocated, not yet promoted `DelayedWork` at `p` is cancelled, no
sequence of operations promotes it. -/
theorem run_after_cancel (as : List Action) (s : State) (p : Ptr)
    (hp : p < s.nextPtr) (hc : (s.store p)._cancelled = true) (hn : NotPromoted p s) :
    NotPromoted p (run s as) := by
  induction as generalizing s with
  | nil => exact hn
  | cons a as ih =>
    obtain ⟨h1, _, h3⟩ := step_store s a p hp
    exact ih (step s a) h1 (h3 hc) (step_notPromoted s a p hn (fun _ _ => Or.inl hc))

/-- C7: on a scheduler in any state reached since its construction, let
`postDelay` at clock time `now` return the handle `h`; the work it holds is
the one the constructor of `DelayedWork` built. If, after operations `pre`
whose wakes of the cron thread all come before the due time `_due` of that
work, the handle is cancelled, then the call of `cancel` succeeds and,
whatever operations `post` follow, no item promoted from that `DelayedWork`
is in a lane or has been executed; nor was one before the cancellation. -/
theorem cancelled_before_due_never_promoted
    (minThreads maxThreads maxQueueSize fifo1Size fifo2Size : Nat) (hist : List Action)
    (now : TimePoint) (delay : Duration) (callback : Handler) (h : WorkHandle) (s1 : State)
    (hpost : postDelay now delay callback
      (run (new minThreads maxThreads maxQueueSize fifo1Size fifo2Size) hist) = .ok (h, s1))
    (pre post : List Action)
    (hpre : ∀ t, Action.cronWake t ∈ pre → ∀ p, h._handle = some p → t < (s1.store p)._due) :
    ∃ p σ, h._handle = some p ∧ s1.store p = DelayedWork.mkCopy now callback delay ∧
      NotPromoted p (run s1 pre) ∧
      h.cancel (run s1 pre).store = .ok σ ∧ (σ p)._cancelled = true ∧
      step (run s1 pre) (.cancel h) = { run s1 pre with store := σ } ∧
      NotPromoted p (run (step (run s1 pre) (.cancel h)) post) := by
  have halloc := run_allocated hist _
    (new_allocated minThreads maxThreads maxQueueSize fifo1Size fifo2Size)
  generalize run (new minThreads maxThreads maxQueueSize fifo1Size fifo2Size) hist = s at *
  unfold postDelay at hpost
  by_cases hr : s.lifecycle = .Running
  · rw [if_pos hr] at hpost
    simp only [Except.ok.injEq, Prod.mk.injEq] at hpost
    obtain ⟨hh, hs1⟩ := hpost
    subst hh
    have hp1 : s.nextPtr < s1.nextPtr := by rw [← hs1]; exact Nat.lt_succ_self _
    have hd1 : s1.store s.nextPtr = DelayedWork.mkCopy now callback delay := by
      rw [← hs1]; simp
    have hn1 : NotPromoted s.nextPtr s1 := by
      rw [← hs1]
      refine ⟨?_, ?_⟩
      · intro l w hw ho
        exact absurd (halloc.2.1 l w hw _ ho) (lt_irrefl _)
      · intro w hw ho
        exact absurd (halloc.2.2 w hw _ ho) (lt_irrefl _)
    obtain ⟨hp2, hd2, hn2⟩ := run_before_due pre s1 s.nextPtr (s1.store s.nextPtr)._due hp1 rfl
      hn1 (fun t ht => hpre t ht s.nextPtr rfl)
    refine ⟨s.nextPtr, Function.update (run s1 pre).store s.nextPtr
      ((run s1 pre).store s.nextPtr).cancel, rfl, hd1, hn2, rfl, ?_, ?_, ?_⟩
    · simp [DelayedWork.cancel]
    · rw [(step_cancel_destroy (run s1 pre) _).1]; rfl
    · apply run_after_cancel post _ s.nextPtr
      · exact (step_store _ _ _ hp2).1
      · rw [(step_cancel_destroy (run s1 pre) _).1]
        simp [WorkHandle.ofShared, DelayedWork.cancel]
      · exact step_notPromoted _ _ _ hn2 (fun t ht => by cases ht)
  · rw [if_neg hr] at hpost
    cases hpost

end Scheduler

namespace transaction

open SingleCollectionTransactionProxy

/-! ## The constructors of the proxy -/

/-- The creating path of the constructor taking a collection id. -/
theorem mkCid_creates (env : Env) (context : Context) (cid : Cid) (accessType : AccessModeType)
    (w : World) (hz : context.getParentTransaction = TransactionId.ZERO) :
    (∀ t, env.constructCid context cid accessType = .ok t →
      ∃ w1, mkCid env context cid accessType w = (.ok ⟨w.nextPtr, true⟩, w1) ∧ Created w w1 t) ∧
    (∀ e, env.constructCid context cid accessType = .error e →
      mkCid env context cid accessType w = (.error e, w)) := by
  constructor
  · intro t ht
    refine ⟨{ w with
      heap := Function.update w.heap w.nextPtr (some t)
      nextPtr := w.nextPtr + 1
      log := w.log ++ [.created w.nextPtr] }, ?_, ?_⟩
    · simp only [mkCid, hz, ne_eq, not_true_eq_false, if_false, newTransaction, ht]
    · refine ⟨by simp, ?_, rfl, rfl, rfl⟩
      intro q hq
      simp [Function.update_noteq hq]
  · intro e he
    simp only [mkCid, hz, ne_eq, not_true_eq_false, if_false, newTransaction, he]

/-- The creating path of the constructor taking a collection name. -/
theorem mkName_creates (env : Env) (context : Context) (name : String)
    (accessType : AccessModeType) (w : World)
    (hz : context.getParentTransaction = TransactionId.ZERO) :
    (∀ t, env.constructName context name accessType = .ok t →
      ∃ w1, mkName env context name accessType w = (.ok ⟨w.nextPtr, true⟩, w1) ∧
        Created w w1 t) ∧
    (∀ e, env.constructName context name accessType = .error e →
      mkName env context name accessType w = (.error e, w)) := by
  constructor
  · intro t ht
    refine ⟨{ w with
      heap := Function.update w.heap w.nextPtr (some t)
      nextPtr := w.nextPtr + 1
      log := w.log ++ [.created w.nextPtr] }, ?_, ?_⟩
    · simp only [mkName, hz, ne_eq, not_true_eq_false, if_false, newTransaction, ht]
    · refine ⟨by simp, ?_, rfl, rfl, rfl⟩
      intro q hq
      simp [Function.update_noteq hq]
  · intro e he
    simp only [mkName, hz, ne_eq, not_true_eq_false, if_false, newTransaction, he]

/-- Opening succeeds exactly on a registered transaction that is not in use. -/
theorem open_ok_iff (id : TransactionId) (vocbase : Vocbase) (w : World) (trx : TrxPtr)
    (w1 : World) :
    Methods.open id vocbase w = (.ok trx, w1) ↔
      ∃ e, w.registry vocbase id = some e ∧ e.inUse = false ∧ trx = e.trx ∧
        w1 = { w with
          registry := fun v i =>
            if v = vocbase ∧ i = id then some { e with inUse := true } else w.registry v i
          log := w.log ++ [.opened id e.trx] } := by
  unfold Methods.open
  cases hr : w.registry vocbase id with
  | none => simp
  | some e =>
    cases hu : e.inUse with
    | true => simp [hu]
    | false =>
      simp only [hu, Bool.false_eq_true, if_false, Prod.mk.injEq, Except.ok.injEq,
        Option.some.injEq]
      constructor
      · rintro ⟨h1, h2⟩
        exact ⟨e, rfl, hu, h1.symm, h2.symm⟩
      · rintro ⟨e1, h1, _, h3, h4⟩
        subst h1
        exact ⟨h3.symm, h4.symm⟩

/-- The borrowing path of the constructor taking a collection id: it
succeeds exactly when the parent transaction is registered, not in use and
alive and `addCollection` succeeds on it, and then the proxy holds that
transaction, not created here. -/
theorem mkCid_borrows (env : Env) (context : Context) (cid : Cid) (accessType : AccessModeType)
    (w : World) (hnz : context.getParentTransaction ≠ TransactionId.ZERO)
    (p : SingleCollectionTransactionProxy) (w1 : World) :
    mkCid env context cid accessType w = (.ok p, w1) ↔
      ∃ e t t1, w.registry context.vocbase context.getParentTransaction = some e ∧
        e.inUse = false ∧ w.heap e.trx = some t ∧
        env.addCollection t cid accessType = .ok t1 ∧
        p = ⟨e.trx, false⟩ ∧
        w1 = { w with
          registry := fun v i =>
            if v = context.vocbase ∧ i = context.getParentTransaction then
              some { e with inUse := true }
            else w.registry v i
          heap := Function.update w.heap e.trx (some t1)
          log := w.log ++ [.opened context.getParentTransaction e.trx, .added e.trx cid] } := by
  constructor
  · intro h
    simp only [mkCid, hnz, ne_eq, not_false_eq_true, if_true, Methods.open] at h
    cases hr : w.registry context.vocbase context.getParentTransaction with
    | none => rw [hr] at h; simp at h
    | some e =>
      rw [hr] at h
      cases hu : e.inUse with
      | true => simp [hu] at h
      | false =>
        simp only [hu, Bool.false_eq_true, if_false, callAddCollection] at h
        cases hh : w.heap e.trx with
        | none => rw [hh] at h; simp at h
        | some t =>
          rw [hh] at h
          simp only at h
          cases ha : env.addCollection t cid accessType with
          | error err => rw [ha] at h; simp at h
          | ok t1 =>
            rw [ha] at h
            simp only [List.append_assoc, List.singleton_append, Prod.mk.injEq,
              Except.ok.injEq] at h
            exact ⟨e, t, t1, rfl, hu, hh, ha, h.1.symm, h.2.symm⟩
  · rintro ⟨e, t, t1, hr, hu, hh, ha, rfl, rfl⟩
    simp [mkCid, hnz, Methods.open, hr, hu, callAddCollection, hh, ha]

/-- The borrowing path of the constructor taking a collection name: as for
the collection id, the id being the one the transaction's resolver gives for
the name. -/
theorem mkName_borrows (env : Env) (context : Context) (name : String)
    (accessType : AccessModeType) (w : World)
    (hnz : context.getParentTransaction ≠ TransactionId.ZERO)
    (p : SingleCollectionTransactionProxy) (w1 : World) :
    mkName env context name accessType w = (.ok p, w1) ↔
      ∃ e t cid t1, w.registry context.vocbase context.getParentTransaction = some e ∧
        e.inUse = false ∧ w.heap e.trx = some t ∧
        env.getCollectionId t name = .ok cid ∧
        env.addCollectionNamed t cid name accessType = .ok t1 ∧
        p = ⟨e.trx, false⟩ ∧
        w1 = { w with
          registry := fun v i =>
            if v = context.vocbase ∧ i = context.getParentTransaction then
              some { e with inUse := true }
            else w.registry v i
          heap := Function.update w.heap e.trx (some t1)
          log := w.log ++ [.opened context.getParentTransaction e.trx, .added e.trx cid] } := by
  constructor
  · intro h
    simp only [mkName, hnz, ne_eq, not_false_eq_true, if_true, Methods.open] at h
    cases hr : w.registry context.vocbase context.getParentTransaction with
    | none => rw [hr] at h; simp at h
    | some e =>
      rw [hr] at h
      cases hu : e.inUse with
      | true => simp [hu] at h
      | false =>
        simp only [hu, Bool.false_eq_true, if_false, callAddCollection] at h
        cases hh : w.heap e.trx with
        | none => rw [hh] at h; simp at h
        | some t =>
          rw [hh] at h
          simp only at h
          cases hg : env.getCollectionId t name with
          | error err => rw [hg] at h; simp at h
          | ok cid =>
            rw [hg] at h
            simp only at h
            cases ha : env.addCollectionNamed t cid name accessType with
            | error err => rw [ha] at h; simp at h
            | ok t1 =>
              rw [ha] at h
              simp only [List.append_assoc, List.singleton_append, Prod.mk.injEq,
                Except.ok.injEq] at h
              exact ⟨e, t, cid, t1, rfl, hu, hh, hg, ha, h.1.symm, h.2.symm⟩
  · rintro ⟨e, t, cid, t1, hr, hu, hh, hg, ha, rfl, rfl⟩
    simp [mkName, hnz, Methods.open, hr, hu, callAddCollection, hh, hg, ha]

/-- On the borrowing path, whether the constructor succeeds or throws, no
transaction object is allocated and no creation is recorded. -/
theorem borrow_never_creates (env : Env) (context : Context) (cid : Cid) (name : String)
    (accessType : AccessModeType) (w : World)
    (hnz : context.getParentTransaction ≠ TransactionId.ZERO) :
    ((mkCid env context cid accessType w).2.nextPtr = w.nextPtr ∧
      ∀ x, Event.created x ∈ (mkCid env context cid accessType w).2.log →
        Event.created x ∈ w.log) ∧
    ((mkName env context name accessType w).2.nextPtr = w.nextPtr ∧
      ∀ x, Event.created x ∈ (mkName env context name accessType w).2.log →
        Event.created x ∈ w.log) := by
  constructor
  · simp only [mkCid, hnz, ne_eq, not_false_eq_true, if_true, Methods.open, callAddCollection]
    cases hr : w.registry context.vocbase context.getParentTransaction with
    | none => simp
    | some e =>
      cases hu : e.inUse with
      | true => simp [hu]
      | false =>
        simp only [hu, Bool.false_eq_true, if_false]
        cases hh : w.heap e.trx with
        | none => simp
        | some t =>
          simp only
          cases ha : env.addCollection t cid accessType <;> simp
  · simp only [mkName, hnz, ne_eq, not_false_eq_true, if_true, Methods.open, callAddCollection]
    cases hr : w.registry context.vocbase context.getParentTransaction with
    | none => simp
    | some e =>
      cases hu : e.inUse with
      | true => simp [hu]
      | false =>
        simp only [hu, Bool.false_eq_true, if_false]
        cases hh : w.heap e.trx with
        | none => simp
        | some t =>
          simp only
          cases hg : env.getCollectionId t name with
          | error err => simp
          | ok c =>
            simp only [hh]
            cases ha : env.addCollectionNamed t c name accessType <;> simp

/-- On the creating path, whether the constructor succeeds or throws, the
registry is untouched and no opening is recorded. -/
theorem create_never_opens (env : Env) (context : Context) (cid : Cid) (name : String)
    (accessType : AccessModeType) (w : World)
    (hz : context.getParentTransaction = TransactionId.ZERO) :
    ((mkCid env context cid accessType w).2.registry = w.registry ∧
      ∀ i x, Event.opened i x ∈ (mkCid env context cid accessType w).2.log →
        Event.opened i x ∈ w.log) ∧
    ((mkName env context name accessType w).2.registry = w.registry ∧
      ∀ i x, Event.opened i x ∈ (mkName env context name accessType w).2.log →
        Event.opened i x ∈ w.log) := by
  constructor
  · simp only [mkCid, hz, ne_eq, not_true_eq_false, if_false, newTransaction]
    cases hc : env.constructCid context cid accessType <;> simp
  · simp only [mkName, hz, ne_eq, not_true_eq_false, if_false, newTransaction]
    cases hc : env.constructName context name accessType <;> simp

/-- C10: for both constructors of the proxy. With the parent transaction id
ZERO, and the transaction's own constructor succeeding, the proxy is
constructed around a newly created transaction and records that it was
created here. With a parent id other than ZERO, and that transaction
registered, not in use, and accepting the collection, the proxy is
constructed around the opened transaction, to which the collection is added
with the requested access type, no transaction is created, and the proxy
records that it was not created here. Whenever a constructor succeeds, the
record `_wasCreatedHere` tells which of the two happened; and whether it
succeeds or throws, the creating path opens no transaction and the borrowing
path creates none. -/
theorem proxy_borrows_or_creates (env : Env) (context : Context) (cid : Cid) (name : String)
    (accessType : AccessModeType) (w : World) :
    (context.getParentTransaction = TransactionId.ZERO →
      (∀ t, env.constructCid context cid accessType = .ok t →
        ∃ w1, mkCid env context cid accessType w = (.ok ⟨w.nextPtr, true⟩, w1) ∧
          Created w w1 t) ∧
      (∀ t, env.constructName context name accessType = .ok t →
        ∃ w1, mkName env context name accessType w = (.ok ⟨w.nextPtr, true⟩, w1) ∧
          Created w w1 t) ∧
      (∀ p w1, (mkCid env context cid accessType w = (.ok p, w1) ∨
          mkName env context name accessType w = (.ok p, w1)) →
        p._wasCreatedHere = true ∧ p._trx = w.nextPtr ∧ w1.registry = w.registry) ∧
      ((mkCid env context cid accessType w).2.registry = w.registry ∧
        ∀ i x, Event.opened i x ∈ (mkCid env context cid accessType w).2.log →
          Event.opened i x ∈ w.log) ∧
      ((mkName env context name accessType w).2.registry = w.registry ∧
        ∀ i x, Event.opened i x ∈ (mkName env context name accessType w).2.log →
          Event.opened i x ∈ w.log)) ∧
    (context.getParentTransaction ≠ TransactionId.ZERO →
      (∀ e t t1, w.registry context.vocbase context.getParentTransaction = some e →
        e.inUse = false → w.heap e.trx = some t →
        env.addCollection t cid accessType = .ok t1 →
        ∃ w1, mkCid env context cid accessType w = (.ok ⟨e.trx, false⟩, w1) ∧
          Borrowed w w1 context e t1 cid) ∧
      (∀ e t c t1, w.registry context.vocbase context.getParentTransaction = some e →
        e.inUse = false → w.heap e.trx = some t →
        env.getCollectionId t name = .ok c →
        env.addCollectionNamed t c name accessType = .ok t1 →
        ∃ w1, mkName env context name accessType w = (.ok ⟨e.trx, false⟩, w1) ∧
          Borrowed w w1 context e t1 c) ∧
      (∀ p w1, (mkCid env context cid accessType w = (.ok p, w1) ∨
          mkName env context name accessType w = (.ok p, w1)) →
        p._wasCreatedHere = false ∧ w1.nextPtr = w.nextPtr ∧
          (∀ x, Event.created x ∈ w1.log → Event.created x ∈ w.log) ∧
          ∃ e, w.registry context.vocbase context.getParentTransaction = some e ∧
            e.inUse = false ∧ p._trx = e.trx) ∧
      ((mkCid env context cid accessType w).2.nextPtr = w.nextPtr ∧
        ∀ x, Event.created x ∈ (mkCid env context cid accessType w).2.log →
          Event.created x ∈ w.log) ∧
      ((mkName env context name accessType w).2.nextPtr = w.nextPtr ∧
        ∀ x, Event.created x ∈ (mkName env context name accessType w).2.log →
          Event.created x ∈ w.log)) := by
  have hborrowed : ∀ (e : RegistryEntry) (t1 : Transaction) (c : Cid),
      Borrowed w
        { w with
          registry := fun v i =>
            if v = context.vocbase ∧ i = context.getParentTransaction then
              some { e with inUse := true }
            else w.registry v i
          heap := Function.update w.heap e.trx (some t1)
          log := w.log ++ [.opened context.getParentTransaction e.trx, .added e.trx c] }
        context e t1 c := by
    intro e t1 c
    refine ⟨by simp, by simp, ?_, rfl, rfl⟩
    intro q hq
    simp [Function.update_noteq hq]
  constructor
  · intro hz
    refine ⟨(mkCid_creates env context cid accessType w hz).1,
      (mkName_creates env context name accessType w hz).1, ?_,
      (create_never_opens env context cid name accessType w hz).1,
      (create_never_opens env context cid name accessType w hz).2⟩
    rintro p w1 (h | h)
    · cases hc : env.constructCid context cid accessType with
      | error err =>
        rw [(mkCid_creates env context cid accessType w hz).2 err hc] at h
        simp at h
      | ok t =>
        obtain ⟨w2, h2, hcr⟩ := (mkCid_creates env context cid accessType w hz).1 t hc
        rw [h2] at h
        simp only [Prod.mk.injEq, Except.ok.injEq] at h
        obtain ⟨rfl, rfl⟩ := h
        exact ⟨rfl, rfl, hcr.2.2.2.1⟩
    · cases hc : env.constructName context name accessType with
      | error err =>
        rw [(mkName_creates env context name accessType w hz).2 err hc] at h
        simp at h
      | ok t =>
        obtain ⟨w2, h2, hcr⟩ := (mkName_creates env context name accessType w hz).1 t hc
        rw [h2] at h
        simp only [Prod.mk.injEq, Except.ok.injEq] at h
        obtain ⟨rfl, rfl⟩ := h
        exact ⟨rfl, rfl, hcr.2.2.2.1⟩
  · intro hnz
    refine ⟨?_, ?_, ?_, (borrow_never_creates env context cid name accessType w hnz).1,
      (borrow_never_creates env context cid name accessType w hnz).2⟩
    · intro e t t1 hr hu hh ha
      exact ⟨_, (mkCid_borrows env context cid accessType w hnz _ _).2
        ⟨e, t, t1, hr, hu, hh, ha, rfl, rfl⟩, hborrowed e t1 cid⟩
    · intro e t c t1 hr hu hh hg ha
      exact ⟨_, (mkName_borrows env context name accessType w hnz _ _).2
        ⟨e, t, c, t1, hr, hu, hh, hg, ha, rfl, rfl⟩, hborrowed e t1 c⟩
    · rintro p w1 (h | h)
      · obtain ⟨e, t, t1, hr, hu, _, _, rfl, rfl⟩ :=
          (mkCid_borrows env context cid accessType w hnz p w1).1 h
        refine ⟨rfl, rfl, ?_, e, hr, hu, rfl⟩
        intro x hx
        simpa using hx
      · obtain ⟨e, t, c, t1, hr, hu, _, _, _, rfl, rfl⟩ :=
          (mkName_borrows env context name accessType w hnz p w1).1 h
        refine ⟨rfl, rfl, ?_, e, hr, hu, rfl⟩
        intro x hx
        simpa using hx

/-- C10 at a concrete input: borrowing the registered transaction 5 of
database 1, and creating a transaction when the parent id is ZERO. -/
theorem proxy_borrows_or_creates_witness :
    (∃ w1, mkCid exampleEnv ⟨5, 1⟩ 42 .WRITE exampleWorld = (.ok ⟨0, false⟩, w1) ∧
      Borrowed exampleWorld w1 ⟨5, 1⟩ ⟨0, false⟩ ⟨[⟨42, none, .WRITE⟩]⟩ 42) ∧
    (∃ w1, mkName exampleEnv ⟨0, 1⟩ "users" .READ exampleWorld = (.ok ⟨1, true⟩, w1) ∧
      Created exampleWorld w1 ⟨[⟨42, some "users", .READ⟩]⟩) :=
  ⟨((proxy_borrows_or_creates exampleEnv ⟨5, 1⟩ 42 "users" .WRITE exampleWorld).2
      (by decide)).1 ⟨0, false⟩ ⟨[]⟩ ⟨[⟨42, none, .WRITE⟩]⟩ rfl rfl rfl rfl,
    ((proxy_borrows_or_creates exampleEnv ⟨0, 1⟩ 42 "users" .READ exampleWorld).1
      rfl).2.1 ⟨[⟨42, some "users", .READ⟩]⟩ rfl⟩

end transaction

namespace Scheduler

/-! ## The properties at concrete inputs -/

/-- C8 at a concrete input: a scheduler with one to four workers is started,
`beginShutdown()` is called, a worker takes a turn and the cron thread wakes;
a submission is then turned away and a delayed submission fails. -/
theorem submissions_rejected_after_beginShutdown_witness :
    (run (new 1 4 0 0 0) [.start]).lifecycle ≠ .Created ∧
      (queue .HIGH 3 (run (step (run (new 1 4 0 0 0) [.start]) .beginShutdown)
        [.work, .cronWake 5])).1 = false ∧
      postDelay 0 10 3 (run (step (run (new 1 4 0 0 0) [.start]) .beginShutdown)
        [.work, .cronWake 5]) = .error .RejectedSubmission :=
  have h := submissions_rejected_after_beginShutdown (run (new 1 4 0 0 0) [.start])
    (by decide) [.work, .cronWake 5] .HIGH 3 0 10
  ⟨by decide, h.1, h.2.2.1⟩

/-- C8 as stated fails: on a freshly constructed scheduler, which is in
`Created`, `beginShutdown()` is refused as a misuse and changes nothing, so
that `queue` still returns true after it, also once the scheduler is started;
and `postDelay` is refused in `Created`, a state that is neither
`ShuttingDown` nor `Stopped`. -/
theorem submissions_after_refused_beginShutdown :
    (new 1 4 0 0 0).lifecycle = .Created ∧
      beginShutdown (new 1 4 0 0 0) = .error .LifecycleMisuse ∧
      (queue .HIGH 3 (step (new 1 4 0 0 0) .beginShutdown)).1 = true ∧
      (queue .HIGH 3 (run (step (new 1 4 0 0 0) .beginShutdown) [.start])).1 = true ∧
      postDelay 0 10 3 (new 1 4 0 0 0) = .error .RejectedSubmission :=
  ⟨rfl, rfl, rfl, rfl, rfl⟩

/-- C9 at a concrete input: between one and four workers; after `start()` the
supervisor starts five workers in a row and then stops three. -/
theorem numWorker_within_bounds_witness :
    ∃ s1, start (new 1 4 0 0 0) = .ok s1 ∧
      1 ≤ (run s1 [.startOneThread, .startOneThread, .startOneThread, .startOneThread,
        .startOneThread, .stopOneThread, .stopOneThread, .stopOneThread])._numWorker ∧
      (run s1 [.startOneThread, .startOneThread, .startOneThread, .startOneThread,
        .startOneThread, .stopOneThread, .stopOneThread, .stopOneThread])._numWorker ≤ 4 :=
  numWorker_within_bounds 1 4 0 0 0 (by decide)
    [.startOneThread, .startOneThread, .startOneThread, .startOneThread,
      .startOneThread, .stopOneThread, .stopOneThread, .stopOneThread] (by decide)

/-- C7 at a concrete input: on a started scheduler a work is posted at tick 0
with delay 100; the cron thread wakes at tick 50, a task is submitted and run,
the handle is cancelled, and the cron thread wakes again at tick 200 before two
turns of a worker: the work at address 0 is in no lane and was not executed. -/
theorem cancelled_before_due_never_promoted_witness :
    ∃ p σ, (WorkHandle.ofShared (some 0))._handle = some p ∧
      (step (run (new 1 4 0 0 0) [.start]) (.postDelay 0 100 7)).store p =
        DelayedWork.mkCopy 0 7 100 ∧
      NotPromoted p (run (step (run (new 1 4 0 0 0) [.start]) (.postDelay 0 100 7))
        [.cronWake 50, .queue .HIGH 3, .work]) ∧
      (WorkHandle.ofShared (some 0)).cancel
        (run (step (run (new 1 4 0 0 0) [.start]) (.postDelay 0 100 7))
          [.cronWake 50, .queue .HIGH 3, .work]).store = .ok σ ∧
      (σ p)._cancelled = true ∧
      step (run (step (run (new 1 4 0 0 0) [.start]) (.postDelay 0 100 7))
          [.cronWake 50, .queue .HIGH 3, .work]) (.cancel (WorkHandle.ofShared (some 0))) =
        { run (step (run (new 1 4 0 0 0) [.start]) (.postDelay 0 100 7))
            [.cronWake 50, .queue .HIGH 3, .work] with store := σ } ∧
      NotPromoted p
        (run (step (run (step (run (new 1 4 0 0 0) [.start]) (.postDelay 0 100 7))
            [.cronWake 50, .queue .HIGH 3, .work]) (.cancel (WorkHandle.ofShared (some 0))))
          [.cronWake 200, .work, .work]) :=
  cancelled_before_due_never_promoted 1 4 0 0 0 [.start] 0 100 7 (WorkHandle.ofShared (some 0))
    (step (run (new 1 4 0 0 0) [.start]) (.postDelay 0 100 7)) rfl
    [.cronWake 50, .queue .HIGH 3, .work] [.cronWake 200, .work, .work]
    (by
      intro t ht p hp
      simp only [List.mem_cons, Action.cronWake.injEq, reduceCtorEq, List.mem_nil_iff,
        or_false, false_or] at ht
      simp only [WorkHandle.ofShared, Option.some.injEq] at hp
      subst ht
      subst hp
      decide)

set_option maxRecDepth 100000 in
/-- The same run without the cancellation: the cron thread's wake at tick 200
promotes the work at address 0, and a worker executes it. -/
theorem not_cancelled_is_promoted :
    ¬ NotPromoted 0
      (run (step (run (new 1 4 0 0 0) [.start]) (.postDelay 0 100 7))
        [.cronWake 50, .queue .HIGH 3, .work, .cronWake 200, .work, .work]) := by
  decide

end Scheduler

namespace Scheduler

/-! ## The comparison of DelayedWork, and what cancel leaves alone -/

/-- C12: `DelayedWork::operator<` is decided by the due times alone. `a < b`
holds exactly when `a._due < b._due`, and replacing the handlers and the
cancelled flags of both sides does not change the result; the comparison is
irreflexive and transitive; and of two items with equal due times neither is
less than the other. -/
theorem DelayedWork.lt_by_due_alone (a b c : DelayedWork) :
    (a.lt b = true ↔ a._due < b._due) ∧
      (∀ (h1 h2 : Handler) (c1 c2 : Bool),
        DelayedWork.lt ⟨h1, a._due, c1⟩ ⟨h2, b._due, c2⟩ = a.lt b) ∧
      a.lt a = false ∧
      (a.lt b = true → b.lt c = true → a.lt c = true) ∧
      (a._due = b._due → a.lt b = false ∧ b.lt a = false) := by
  refine ⟨by simp [DelayedWork.lt], fun _ _ _ _ => rfl, by simp [DelayedWork.lt], ?_, ?_⟩
  · simp only [DelayedWork.lt, decide_eq_true_eq]
    exact fun h1 h2 => lt_trans h1 h2
  · intro he
    simp [DelayedWork.lt, he]

/-- C13: `cancel()` changes nothing but the cancelled flag. Called on a
`DelayedWork` it keeps the handler and the due time; called through a handle
that holds the address `p` it succeeds, keeps the handler and the due time of
the object at `p`, and leaves the object at every other address as it was. -/
theorem cancel_changes_only_flag (w : DelayedWork) (σ : Store) (p : Ptr) :
    w.cancel._handler = w._handler ∧ w.cancel._due = w._due ∧
      ∃ σ1, (WorkHandle.ofShared (some p)).cancel σ = .ok σ1 ∧
        (σ1 p)._handler = (σ p)._handler ∧ (σ1 p)._due = (σ p)._due ∧
        ∀ q, q ≠ p → σ1 q = σ q := by
  refine ⟨rfl, rfl, Function.update σ p (σ p).cancel, rfl, ?_, ?_, ?_⟩
  · simp [DelayedWork.cancel]
  · simp [DelayedWork.cancel]
  · intro q hq
    exact Function.update_noteq hq _ _

/-! ## The state probes -/

/-- C14: the state probes are pure reads. `isRunning()` returns true exactly
when `_numWorker` is greater than zero, `isStopping()` returns the value of
`_stopping`, and after either call the scheduler is in the state it was in. -/
theorem probes_are_pure_reads (s : State) :
    ((callIsRunning s).1 = true ↔ 0 < s._numWorker) ∧
      (callIsStopping s).1 = s._stopping ∧
      (callIsRunning s).2 = s ∧ (callIsStopping s).2 = s := by
  refine ⟨?_, rfl, rfl, rfl⟩
  simp [callIsRunning, isRunning]

/-- C14 at a concrete input: a scheduler with three workers that is not
stopping, and a freshly constructed one. -/
theorem probes_are_pure_reads_witness :
    (callIsRunning threeWorkers).1 = true ∧ (callIsStopping threeWorkers).1 = false ∧
      (callIsRunning (new 1 4 0 0 0)).1 = false :=
  ⟨(probes_are_pure_reads threeWorkers).1.2 (by decide),
    (probes_are_pure_reads threeWorkers).2.1,
    by decide⟩

/-! ## Copies of a handle, empty handles -/

/-- C15: copies of a handle share one `DelayedWork`, and each copy cancels on
destruction. Let `h` hold the not yet cancelled `DelayedWork` at `p`, and let
`h2` be made from `h` by copy construction or by copy assignment. Then `h2`
holds `p`, destroying `h` succeeds and leaves the `DelayedWork` at `p`
cancelled; run as a sequence (construct, copy, destroy the original) the copy
is the one handle left alive, it holds `p`, and `p` is cancelled. -/
theorem copy_destroyed_cancels_shared (σ : Store) (p : Ptr) (target : WorkHandle)
    (hc : (σ p)._cancelled = false) :
    (WorkHandle.ofShared (some p)).copy._handle = some p ∧
      (target.assign (WorkHandle.ofShared (some p)))._handle = some p ∧
      (∃ σ1, (WorkHandle.ofShared (some p)).destroy σ = .ok σ1 ∧
        (σ1 p)._cancelled = true ∧ (σ1 p)._cancelled ≠ (σ p)._cancelled) ∧
      (runOps ⟨[], σ⟩ [.make (some p), .copy 0, .destroy 0]).1.handles = [⟨some p⟩] ∧
      ((runOps ⟨[], σ⟩ [.make (some p), .copy 0, .destroy 0]).1.store p)._cancelled = true ∧
      (runOps ⟨[], σ⟩ [.make (some p), .copy 0, .destroy 0]).2 = none := by
  refine ⟨rfl, rfl, ⟨Function.update σ p (σ p).cancel, ?_, ?_, ?_⟩, ?_, ?_, ?_⟩
  · simp [WorkHandle.destroy, WorkHandle.ofShared, WorkHandle.cancel]
  · simp [DelayedWork.cancel]
  · rw [hc]; simp [DelayedWork.cancel]
  · simp [runOps, HandleOp.apply, WorkHandle.ofShared, WorkHandle.copy, WorkHandle.destroy,
      WorkHandle.cancel]
  · simp [runOps, HandleOp.apply, WorkHandle.ofShared, WorkHandle.copy, WorkHandle.destroy,
      WorkHandle.cancel, DelayedWork.cancel]
  · simp [runOps, HandleOp.apply, WorkHandle.ofShared, WorkHandle.copy, WorkHandle.destroy,
      WorkHandle.cancel]

/-- C15 at a concrete input: the pending item at address 1 of `twoPending`. -/
theorem copy_destroyed_cancels_shared_witness :
    (twoPending 1)._cancelled = false ∧
      (runOps ⟨[], twoPending⟩ [.make (some 1), .copy 0, .destroy 0]).1.handles = [⟨some 1⟩] ∧
      ((runOps ⟨[], twoPending⟩
        [.make (some 1), .copy 0, .destroy 0]).1.store 1)._cancelled = true :=
  have h := copy_destroyed_cancels_shared twoPending 1 WorkHandle.default (by decide)
  ⟨by decide, h.2.2.2.1, h.2.2.2.2.1⟩

/-- C16: `WorkHandle::cancel()` succeeds exactly on a handle that holds a
`DelayedWork`. On a handle made from a non-empty shared pointer it succeeds;
on a default-constructed handle and on any handle after `detach()` it
dereferences an empty pointer; destroying such an empty handle succeeds and
leaves every `DelayedWork` as it was. -/
theorem WorkHandle.cancel_defined_iff_holding (h : WorkHandle) (σ : Store) (p : Ptr) :
    ((∃ σ1, h.cancel σ = .ok σ1) ↔ ∃ q, h._handle = some q) ∧
      (h.cancel σ = .error .nullDeref ↔ h._handle = none) ∧
      (∃ σ1, (WorkHandle.ofShared (some p)).cancel σ = .ok σ1) ∧
      WorkHandle.default.cancel σ = .error .nullDeref ∧
      (h.detach σ).1.cancel (h.detach σ).2 = .error .nullDeref ∧
      WorkHandle.default.destroy σ = .ok σ ∧
      (h.detach σ).1.destroy (h.detach σ).2 = .ok σ := by
  refine ⟨?_, ?_, ⟨_, rfl⟩, rfl, rfl, rfl, rfl⟩
  · cases hh : h._handle <;> simp [WorkHandle.cancel, hh]
  · cases hh : h._handle <;> simp [WorkHandle.cancel, hh]

end Scheduler

namespace Scheduler

/-! ## Cancellation is permanent -/

/-- One operation on a `DelayedWork` or on a handle keeps a cancelled
`DelayedWork` cancelled. -/
theorem HandleOp.apply_keeps_cancelled (s s1 : Handles) (op : HandleOp) (p : Ptr)
    (h : op.apply s = .ok s1) (hc : (s.store p)._cancelled = true) :
    (s1.store p)._cancelled = true := by
  have hupd : ∀ q : Ptr, (Function.update s.store q (s.store q).cancel p)._cancelled = true := by
    intro q
    by_cases hq : p = q
    · subst hq; simp [DelayedWork.cancel]
    · rw [Function.update_noteq hq]; exact hc
  cases op with
  | cancelWork q =>
    simp only [HandleOp.apply, Except.ok.injEq] at h
    subst h
    exact hupd q
  | make handle =>
    simp only [HandleOp.apply, Except.ok.injEq] at h
    subst h
    exact hc
  | cancel i =>
    simp only [HandleOp.apply] at h
    cases hi : s.handles[i]? with
    | none => rw [hi] at h; cases h; exact hc
    | some hd =>
      rw [hi] at h
      cases hh : hd._handle with
      | none => simp [WorkHandle.cancel, hh] at h
      | some q =>
        simp only [WorkHandle.cancel, hh, Except.ok.injEq] at h
        subst h
        exact hupd q
  | detach i =>
    simp only [HandleOp.apply] at h
    cases hi : s.handles[i]? with
    | none => rw [hi] at h; cases h; exact hc
    | some hd =>
      rw [hi] at h
      simp only [WorkHandle.detach, Except.ok.injEq] at h
      subst h
      exact hc
  | copy i =>
    simp only [HandleOp.apply] at h
    cases hi : s.handles[i]? with
    | none => rw [hi] at h; cases h; exact hc
    | some hd =>
      rw [hi] at h
      simp only [Except.ok.injEq] at h
      subst h
      exact hc
  | assign i j =>
    simp only [HandleOp.apply] at h
    cases hi : s.handles[i]? with
    | none => rw [hi] at h; cases h; exact hc
    | some hd =>
      cases hj : s.handles[j]? with
      | none => rw [hi, hj] at h; cases h; exact hc
      | some hs =>
        rw [hi, hj] at h
        simp only [Except.ok.injEq] at h
        subst h
        exact hc
  | destroy i =>
    simp only [HandleOp.apply] at h
    cases hi : s.handles[i]? with
    | none => rw [hi] at h; cases h; exact hc
    | some hd =>
      rw [hi] at h
      cases hh : hd._handle with
      | none =>
        simp only [WorkHandle.destroy, hh, Option.isSome_none, Bool.false_eq_true, if_false,
          Except.ok.injEq] at h
        subst h
        exact hc
      | some q =>
        simp only [WorkHandle.destroy, hh, Option.isSome_some, if_true, WorkHandle.cancel,
          Except.ok.injEq] at h
        subst h
        exact hupd q

/-- C17: cancellation is permanent. From any handles and any store in which
the `DelayedWork` at `p` is cancelled, after any sequence of operations
(cancelling a `DelayedWork`, constructing, cancelling, detaching, copying,
assigning and destroying handles), run as far as it is defined, the
`DelayedWork` at `p` is still cancelled. -/
theorem cancellation_is_permanent (s : Handles) (ops : List HandleOp) (p : Ptr)
    (hc : (s.store p)._cancelled = true) :
    ((runOps s ops).1.store p)._cancelled = true := by
  induction ops generalizing s with
  | nil => exact hc
  | cons op ops ih =>
    unfold runOps
    cases ha : op.apply s with
    | error f => exact hc
    | ok s1 => exact ih s1 (HandleOp.apply_keeps_cancelled s s1 op p ha hc)

/-- C17 at a concrete input: the item at address 1 is cancelled through a
handle; copying, detaching, destroying and cancelling again leave it
cancelled. -/
theorem cancellation_is_permanent_witness :
    ((runOps (runOps ⟨[], twoPending⟩ [.make (some 1), .cancel 0]).1
      [.copy 0, .detach 0, .destroy 0, .make (some 1), .assign 0 1, .cancelWork 1,
        .destroy 1]).1.store 1)._cancelled = true :=
  cancellation_is_permanent (runOps ⟨[], twoPending⟩ [.make (some 1), .cancel 0]).1
    [.copy 0, .detach 0, .destroy 0, .make (some 1), .assign 0 1, .cancelWork 1, .destroy 1]
    1 (by decide)

end Scheduler

namespace transaction

open SingleCollectionTransactionProxy

/-! ## The destructor of the proxy, and a construction that fails half way -/

/-- After a successful construction the record `_wasCreatedHere` is true
exactly when the constructor created the transaction the proxy wraps. -/
theorem constructed_created_iff (env : Env) (context : Context) (cid : Cid) (name : String)
    (accessType : AccessModeType) (w w1 : World) (p : SingleCollectionTransactionProxy)
    (hok : mkCid env context cid accessType w = (.ok p, w1) ∨
      mkName env context name accessType w = (.ok p, w1)) :
    p._wasCreatedHere = true ↔ Event.created p._trx ∈ w1.log.drop w.log.length := by
  by_cases hz : context.getParentTransaction = TransactionId.ZERO
  · rcases hok with hok | hok
    · cases hc : env.constructCid context cid accessType with
      | error err =>
        rw [(mkCid_creates env context cid accessType w hz).2 err hc] at hok
        simp at hok
      | ok t =>
        obtain ⟨w2, h2, hcr⟩ := (mkCid_creates env context cid accessType w hz).1 t hc
        rw [h2] at hok
        simp only [Prod.mk.injEq, Except.ok.injEq] at hok
        obtain ⟨rfl, rfl⟩ := hok
        simp [hcr.2.2.2.2]
    · cases hc : env.constructName context name accessType with
      | error err =>
        rw [(mkName_creates env context name accessType w hz).2 err hc] at hok
        simp at hok
      | ok t =>
        obtain ⟨w2, h2, hcr⟩ := (mkName_creates env context name accessType w hz).1 t hc
        rw [h2] at hok
        simp only [Prod.mk.injEq, Except.ok.injEq] at hok
        obtain ⟨rfl, rfl⟩ := hok
        simp [hcr.2.2.2.2]
  · rcases hok with hok | hok
    · obtain ⟨e, t, t1, _, _, _, _, rfl, rfl⟩ :=
        (mkCid_borrows env context cid accessType w hz p w1).1 hok
      simp
    · obtain ⟨e, t, c, t1, _, _, _, _, _, rfl, rfl⟩ :=
        (mkName_borrows env context name accessType w hz p w1).1 hok
      simp

/-- C11: the destructor of a proxy. If the proxy created the transaction, the
transaction object is deleted, the registry is untouched, and the one call the
destructor makes is the deletion. Otherwise the transaction object stays as it
is, every registry entry holding it is no longer in use, and the one call the
destructor makes is `close()`. So among the calls of the destructor the
deletion occurs exactly when the proxy created the transaction, and `close()`
occurs once when it did not and not at all when it did; and for a proxy that
a constructor returned, the deletion occurs exactly when that constructor
created the transaction. -/
theorem proxy_destructor_deletes_or_closes (p : SingleCollectionTransactionProxy) (w : World) :
    (p._wasCreatedHere = true →
      (destroy p w).heap p._trx = none ∧ (destroy p w).registry = w.registry ∧
        (destroy p w).log = w.log ++ [.deleted p._trx]) ∧
    (p._wasCreatedHere = false →
      (destroy p w).heap = w.heap ∧
        (∀ v i e, w.registry v i = some e → e.trx = p._trx →
          (destroy p w).registry v i = some { e with inUse := false }) ∧
        (destroy p w).log = w.log ++ [.closed p._trx]) ∧
    (Event.deleted p._trx ∈ (destroy p w).log.drop w.log.length ↔ p._wasCreatedHere = true) ∧
    ((destroy p w).log.drop w.log.length).count (.closed p._trx) =
      (if p._wasCreatedHere then 0 else 1) ∧
    ((destroy p w).log.drop w.log.length).count (.deleted p._trx) =
      (if p._wasCreatedHere then 1 else 0) ∧
    (∀ (env : Env) (context : Context) (cid : Cid) (name : String)
        (accessType : AccessModeType) (w0 : World),
      (mkCid env context cid accessType w0 = (.ok p, w) ∨
        mkName env context name accessType w0 = (.ok p, w)) →
      (Event.deleted p._trx ∈ (destroy p w).log.drop w.log.length ↔
        Event.created p._trx ∈ w.log.drop w0.log.length)) := by
  have hcons : ∀ (env : Env) (context : Context) (cid : Cid) (name : String)
      (accessType : AccessModeType) (w0 : World),
      (mkCid env context cid accessType w0 = (.ok p, w) ∨
        mkName env context name accessType w0 = (.ok p, w)) →
      (p._wasCreatedHere = true ↔ Event.created p._trx ∈ w.log.drop w0.log.length) :=
    fun env context cid name accessType w0 hok =>
      constructed_created_iff env context cid name accessType w0 w p hok
  cases hc : p._wasCreatedHere with
  | true =>
    rw [hc] at hcons
    refine ⟨fun _ => ?_, fun h => absurd h (by simp), ?_, ?_, ?_, ?_⟩
    · simp [destroy, hc, delete]
    · simp [destroy, hc, delete]
    · simp [destroy, hc, delete]
    · simp [destroy, hc, delete]
    · intro env context cid name accessType w0 hok
      rw [← hcons env context cid name accessType w0 hok]
      simp [destroy, hc, delete]
  | false =>
    rw [hc] at hcons
    refine ⟨fun h => absurd h (by simp), fun _ => ?_, ?_, ?_, ?_, ?_⟩
    · refine ⟨by simp [destroy, hc, close], ?_, by simp [destroy, hc, close]⟩
      intro v i e hr he
      simp [destroy, hc, close, hr, he]
    · simp [destroy, hc, close]
    · simp [destroy, hc, close]
    · simp [destroy, hc, close]
    · intro env context cid name accessType w0 hok
      rw [← hcons env context cid name accessType w0 hok]
      simp [destroy, hc, close]

/-- The destructor after a successful construction: a borrowed transaction is
back in the registry as it was found and still alive, a created one is gone. -/
theorem destroy_after_construction (env : Env) (context : Context) (cid : Cid)
    (accessType : AccessModeType) (w w1 : World) (p : SingleCollectionTransactionProxy)
    (hok : mkCid env context cid accessType w = (.ok p, w1)) :
    (context.getParentTransaction ≠ TransactionId.ZERO →
      (destroy p w1).registry context.vocbase context.getParentTransaction =
          w.registry context.vocbase context.getParentTransaction ∧
        (destroy p w1).heap p._trx ≠ none ∧
        (destroy p w1).log = w1.log ++ [.closed p._trx]) ∧
    (context.getParentTransaction = TransactionId.ZERO →
      (destroy p w1).heap p._trx = none ∧ (destroy p w1).log = w1.log ++ [.deleted p._trx]) := by
  constructor
  · intro hnz
    obtain ⟨e, t, t1, hr, hu, _, _, rfl, rfl⟩ :=
      (mkCid_borrows env context cid accessType w hnz p w1).1 hok
    refine ⟨?_, ?_, ?_⟩
    · simp only [destroy, close, Bool.false_eq_true, if_false, and_self, if_true]
      rw [hr]
      cases e
      simp_all
    · simp [destroy, close]
    · simp [destroy, close]
  · intro hz
    cases hc : env.constructCid context cid accessType with
    | error err =>
      rw [(mkCid_creates env context cid accessType w hz).2 err hc] at hok
      simp at hok
    | ok t =>
      obtain ⟨w2, h2, _⟩ := (mkCid_creates env context cid accessType w hz).1 t hc
      rw [h2] at hok
      simp only [Prod.mk.injEq, Except.ok.injEq] at hok
      obtain ⟨rfl, rfl⟩ := hok
      simp [destroy, delete]

/-- C11 at a concrete input: a proxy that borrowed the transaction at address
0 closes it, a proxy that created it deletes it. -/
theorem proxy_destructor_deletes_or_closes_witness :
    (destroy ⟨0, false⟩ exampleWorld).log = [.closed 0] ∧
      (destroy ⟨0, false⟩ exampleWorld).heap = exampleWorld.heap ∧
      (destroy ⟨0, true⟩ exampleWorld).heap 0 = none ∧
      (destroy ⟨0, true⟩ exampleWorld).log = [.deleted 0] :=
  ⟨((proxy_destructor_deletes_or_closes ⟨0, false⟩ exampleWorld).2.1 rfl).2.2,
    ((proxy_destructor_deletes_or_closes ⟨0, false⟩ exampleWorld).2.1 rfl).1,
    ((proxy_destructor_deletes_or_closes ⟨0, true⟩ exampleWorld).1 rfl).1,
    ((proxy_destructor_deletes_or_closes ⟨0, true⟩ exampleWorld).1 rfl).2.2⟩

/-- A transaction that is left open cannot be opened again. -/
theorem leftOpen_blocks_open (w w1 : World) (context : Context) (e : RegistryEntry)
    (h : LeftOpen w w1 context e) :
    Methods.open context.getParentTransaction context.vocbase w1 = (.error .alreadyInUse, w1) := by
  simp [Methods.open, h.1]

/-- C18: on the borrowing path of either constructor, let the parent
transaction be registered, not in use and alive, so that opening it succeeds.
If `addCollection` then throws (first constructor), or the resolver throws, or
it answers and `addCollection` throws (second constructor), the constructor
ends with that exception, and in the world it leaves the transaction is in
use, no transaction object was deleted or changed, and the only call recorded
is the opening: no `close()`, no deletion. A further attempt to open the
transaction is then refused as already in use. -/
theorem borrow_failure_leaves_transaction_open (env : Env) (context : Context) (cid : Cid)
    (name : String) (accessType : AccessModeType) (w : World) (e : RegistryEntry)
    (t : Transaction) (hnz : context.getParentTransaction ≠ TransactionId.ZERO)
    (hr : w.registry context.vocbase context.getParentTransaction = some e)
    (hu : e.inUse = false) (hh : w.heap e.trx = some t) :
    (∀ err, env.addCollection t cid accessType = .error err →
      ∃ w1, mkCid env context cid accessType w = (.error err, w1) ∧ LeftOpen w w1 context e ∧
        (∀ x, Event.closed x ∉ w1.log.drop w.log.length) ∧
        (∀ x, Event.deleted x ∉ w1.log.drop w.log.length) ∧
        Methods.open context.getParentTransaction context.vocbase w1 =
          (.error .alreadyInUse, w1)) ∧
    (∀ err, env.getCollectionId t name = .error err →
      ∃ w1, mkName env context name accessType w = (.error err, w1) ∧ LeftOpen w w1 context e ∧
        (∀ x, Event.closed x ∉ w1.log.drop w.log.length) ∧
        (∀ x, Event.deleted x ∉ w1.log.drop w.log.length) ∧
        Methods.open context.getParentTransaction context.vocbase w1 =
          (.error .alreadyInUse, w1)) ∧
    (∀ c err, env.getCollectionId t name = .ok c →
      env.addCollectionNamed t c name accessType = .error err →
      ∃ w1, mkName env context name accessType w = (.error err, w1) ∧ LeftOpen w w1 context e ∧
        (∀ x, Event.closed x ∉ w1.log.drop w.log.length) ∧
        (∀ x, Event.deleted x ∉ w1.log.drop w.log.length) ∧
        Methods.open context.getParentTransaction context.vocbase w1 =
          (.error .alreadyInUse, w1)) := by
  have hleft : LeftOpen w
      { w with
        registry := fun v i =>
          if v = context.vocbase ∧ i = context.getParentTransaction then
            some { e with inUse := true }
          else w.registry v i
        log := w.log ++ [.opened context.getParentTransaction e.trx] }
      context e := ⟨by simp, rfl, rfl, rfl⟩
  refine ⟨?_, ?_, ?_⟩
  · intro err ha
    refine ⟨_, ?_, hleft, by simp, by simp, leftOpen_blocks_open _ _ _ _ hleft⟩
    simp [mkCid, hnz, Methods.open, hr, hu, callAddCollection, hh, ha]
  · intro err hg
    refine ⟨_, ?_, hleft, by simp, by simp, leftOpen_blocks_open _ _ _ _ hleft⟩
    simp [mkName, hnz, Methods.open, hr, hu, hh, hg]
  · intro c err hg ha
    refine ⟨_, ?_, hleft, by simp, by simp, leftOpen_blocks_open _ _ _ _ hleft⟩
    simp [mkName, hnz, Methods.open, hr, hu, callAddCollection, hh, hg, ha]

/-- C18 at a concrete input: transaction 5 of database 1 is registered and
free, and the collection cannot be added; both constructors end with the
exception and leave the transaction in use. -/
theorem borrow_failure_leaves_transaction_open_witness :
    (∃ w1, mkCid refusingEnv ⟨5, 1⟩ 42 .WRITE exampleWorld = (.error (.failed 1203), w1) ∧
      LeftOpen exampleWorld w1 ⟨5, 1⟩ ⟨0, false⟩) ∧
    (∃ w1, mkName refusingEnv ⟨5, 1⟩ "orders" .WRITE exampleWorld =
        (.error (.failed 1203), w1) ∧
      LeftOpen exampleWorld w1 ⟨5, 1⟩ ⟨0, false⟩) :=
  have h := borrow_failure_leaves_transaction_open refusingEnv ⟨5, 1⟩ 42 "orders" .WRITE
    exampleWorld ⟨0, false⟩ ⟨[]⟩ (by decide) rfl rfl rfl
  ⟨(h.1 (.failed 1203) rfl).imp (fun _ hw => ⟨hw.1, hw.2.1⟩),
    (h.2.1 (.failed 1203) (by simp [refusingEnv])).imp (fun _ hw => ⟨hw.1, hw.2.1⟩)⟩

end transaction
